import Mathlib

/-
  Verification development for the gaia C++ agent runtime
  (src/cpp: json_utils.cpp, tool_registry.cpp, agent.cpp, mcp_client.cpp).

  The C++ code is shallowly embedded: each C++ function is translated into an
  executable Lean definition of the same name.  C++ exceptions are modelled
  with `Except String`; a `.error` value marks an exception escaping the
  modelled function.  nlohmann::json is modelled by the inductive `Json`
  below, whose objects keep entries sorted by key with unique keys, exactly
  like the std::map-backed default object type of nlohmann::json.
-/

namespace Gaia

/-- JSON values as used through nlohmann::json in the C++ sources.  Object
entries are kept sorted by key and duplicate-free, mirroring the std::map
object representation (iteration and dump order is therefore key-sorted,
as in the C++ library).  Numerals are restricted to integers; no input in
this development carries a fractional or exponent numeral, and the JSON
parser below rejects them rather than approximating. -/
inductive Json where
  | null : Json
  | bool (b : Bool) : Json
  | num (n : Int) : Json
  | str (s : String) : Json
  | arr (elems : List Json) : Json
  | obj (entries : List (String × Json)) : Json

instance : Inhabited Json := ⟨Json.null⟩

/-- j.is_object() -/
def Json.isObj : Json → Bool
  | .obj _ => true
  | _ => false

/-- Assoc lookup among object entries. -/
def jsonLookup (key : String) : List (String × Json) → Option Json
  | [] => none
  | (k, v) :: rest => if k = key then some v else jsonLookup key rest

/-- j.find(key) / j[key] read access; `none` when absent or not an object. -/
def Json.get? (j : Json) (key : String) : Option Json :=
  match j with
  | .obj entries => jsonLookup key entries
  | _ => none

/-- j.contains(key): false on non-objects, as in nlohmann::json. -/
def Json.contains (j : Json) (key : String) : Bool :=
  (j.get? key).isSome

/-- The lexicographic character-code comparison of std::map keys
(std::string operator less compares code units). -/
def charListLt : List Char → List Char → Bool
  | [], [] => false
  | [], _ :: _ => true
  | _ :: _, [] => false
  | a :: as, b :: bs =>
    if a.toNat < b.toNat then true
    else if b.toNat < a.toNat then false
    else charListLt as bs

def strLt (a b : String) : Bool := charListLt a.data b.data

/-- Sorted insert-or-replace into an object entry list (std::map semantics:
operator[] assignment replaces, parse keeps the last duplicate). -/
def objInsert (key : String) (v : Json) : List (String × Json) → List (String × Json)
  | [] => [(key, v)]
  | (k, w) :: rest =>
    if strLt key k then (key, v) :: (k, w) :: rest
    else if key = k then (key, v) :: rest
    else (k, w) :: objInsert key v rest

/-- j[key] = v on an object (no-op shape kept on non-objects; the C++ call
sites only use it on objects). -/
def Json.setKey (j : Json) (key : String) (v : Json) : Json :=
  match j with
  | .obj entries => .obj (objInsert key v entries)
  | other => other

/-- get of std::string: throws type_error when the value is not a string. -/
def jGetString : Json → Except String String
  | .str s => .ok s
  | _ => .error "type_error: type must be string"

/-- j.value(key, dflt) for a string default: returns dflt when the key is
absent, and throws type_error when present with a non-string value.  The
C++ call sites of this variant only use it after an is_object guard, so the
non-object throw of value() is unreachable there and not modelled here. -/
def jValueString (j : Json) (key dflt : String) : Except String String :=
  match j.get? key with
  | some v => jGetString v
  | none => .ok dflt

/-- j.value(key, dflt) at a call site with no is_object guard: nlohmann
value() throws type_error.306 when j is not an object (the property
translation of mcp_client.cpp calls it on arbitrary property values). -/
def jValueStringOrThrow (j : Json) (key dflt : String) : Except String String :=
  match j with
  | .obj entries =>
    match jsonLookup key entries with
    | some v => jGetString v
    | none => .ok dflt
  | _ => .error "type_error.306: cannot use value() with a non-object"

/-- j.value(key, json-default): total, returns the default when absent. -/
def jValueJson (j : Json) (key : String) (dflt : Json) : Json :=
  (j.get? key).getD dflt

-- ---------------------------------------------------------------------------
-- JSON parsing (nlohmann json::parse, integer numerals only)
-- ---------------------------------------------------------------------------

/-- The four JSON whitespace characters (also the set used by the C++ trim
and find_first_not_of calls in json_utils.cpp). -/
def isJsonWs (c : Char) : Bool :=
  c = ' ' || c = '\t' || c = '\n' || c = '\r'

def skipWs (cs : List Char) : List Char :=
  cs.dropWhile isJsonWs

def isDigitChar (c : Char) : Bool :=
  '0' ≤ c && c ≤ '9'

/-- Value of one hexadecimal digit, by character code (digits, then the
lowercase and uppercase letter ranges). -/
def hexVal (c : Char) : Option Nat :=
  let n := c.toNat
  if 48 ≤ n && n ≤ 57 then some (n - 48)
  else if 97 ≤ n && n ≤ 102 then some (n - 87)
  else if 65 ≤ n && n ≤ 70 then some (n - 55)
  else none

/-- Parse the body of a JSON string literal (after the opening quote),
returning the decoded string and the remainder after the closing quote.
Strict like nlohmann: raw control characters and unknown escapes are
rejected.  \uXXXX decodes a single BMP scalar (surrogate pairs are not
recombined; no input here uses them). -/
def parseStrBody : Nat → List Char → List Char → Option (String × List Char)
  | 0, _, _ => none
  | _ + 1, _, [] => none
  | fuel + 1, acc, c :: rest =>
    if c = '\"' then some (String.mk acc.reverse, rest)
    else if c = '\\' then
      match rest with
      | [] => none
      | e :: rest2 =>
        if e = '\"' then parseStrBody fuel ('\"' :: acc) rest2
        else if e = '\\' then parseStrBody fuel ('\\' :: acc) rest2
        else if e = '/' then parseStrBody fuel ('/' :: acc) rest2
        else if e = 'b' then parseStrBody fuel ('\x08' :: acc) rest2
        else if e = 'f' then parseStrBody fuel ('\x0c' :: acc) rest2
        else if e = 'n' then parseStrBody fuel ('\n' :: acc) rest2
        else if e = 'r' then parseStrBody fuel ('\r' :: acc) rest2
        else if e = 't' then parseStrBody fuel ('\t' :: acc) rest2
        else if e = 'u' then
          match rest2 with
          | h1 :: h2 :: h3 :: h4 :: rest3 =>
            match hexVal h1, hexVal h2, hexVal h3, hexVal h4 with
            | some a, some b, some c3, some d =>
              let code := ((a * 16 + b) * 16 + c3) * 16 + d
              if code < 1114112 ∧ ¬ (55296 ≤ code ∧ code < 57344) then
                parseStrBody fuel (Char.ofNat code :: acc) rest3
              else none
            | _, _, _, _ => none
          | _ => none
        else none
    else if c.toNat < 32 then none
    else parseStrBody fuel (c :: acc) rest

/-- Parse a JSON integer numeral.  Leading zeros are rejected (strict JSON);
a following fraction dot or exponent marks a numeral shape this model does
not support and yields a parse failure. -/
def parseNum (cs : List Char) : Option (Json × List Char) :=
  let (neg, cs1) := match cs with
    | '-' :: rest => (true, rest)
    | _ => (false, cs)
  let digits := cs1.takeWhile isDigitChar
  let rest := cs1.drop digits.length
  if digits = [] then none
  else if digits.length > 1 && digits.headI = '0' then none
  else match rest with
    | '.' :: _ => none
    | 'e' :: _ => none
    | 'E' :: _ => none
    | _ =>
      let v : Int := digits.foldl (fun a c => a * 10 + (Int.ofNat (c.toNat - '0'.toNat))) 0
      some (.num (if neg then -v else v), rest)

def listStartsWith (pat cs : List Char) : Bool :=
  match pat, cs with
  | [], _ => true
  | _ :: _, [] => false
  | p :: ps, c :: rest => p = c && listStartsWith ps rest

mutual

/-- One JSON value (whitespace before it is skipped). -/
def parseVal : Nat → List Char → Option (Json × List Char)
  | 0, _ => none
  | fuel + 1, cs =>
    match skipWs cs with
    | [] => none
    | c :: rest =>
      if c = '\x7b' then
        match skipWs rest with
        | '\x7d' :: rest2 => some (.obj [], rest2)
        | rest2 => parseObjTail fuel [] rest2
      else if c = '[' then
        match skipWs rest with
        | ']' :: rest2 => some (.arr [], rest2)
        | rest2 => parseArrTail fuel [] rest2
      else if c = '\"' then
        match parseStrBody (rest.length + 1) [] rest with
        | some (s, rest2) => some (.str s, rest2)
        | none => none
      else if listStartsWith ['t', 'r', 'u', 'e'] (c :: rest) then
        some (.bool true, rest.drop 3)
      else if listStartsWith ['f', 'a', 'l', 's', 'e'] (c :: rest) then
        some (.bool false, rest.drop 4)
      else if listStartsWith ['n', 'u', 'l', 'l'] (c :: rest) then
        some (.null, rest.drop 3)
      else parseNum (c :: rest)

/-- Remaining members of a non-empty object, starting at a key. -/
def parseObjTail : Nat → List (String × Json) → List Char → Option (Json × List Char)
  | 0, _, _ => none
  | fuel + 1, acc, cs =>
    match skipWs cs with
    | '\"' :: rest =>
      match parseStrBody (rest.length + 1) [] rest with
      | none => none
      | some (key, rest2) =>
        match skipWs rest2 with
        | ':' :: rest3 =>
          match parseVal fuel rest3 with
          | none => none
          | some (v, rest4) =>
            let acc2 := objInsert key v acc
            match skipWs rest4 with
            | ',' :: rest5 => parseObjTail fuel acc2 rest5
            | '\x7d' :: rest5 => some (.obj acc2, rest5)
            | _ => none
        | _ => none
    | _ => none

/-- Remaining elements of a non-empty array. -/
def parseArrTail : Nat → List Json → List Char → Option (Json × List Char)
  | 0, _, _ => none
  | fuel + 1, acc, cs =>
    match parseVal fuel cs with
    | none => none
    | some (v, rest) =>
      match skipWs rest with
      | ',' :: rest2 => parseArrTail fuel (v :: acc) rest2
      | ']' :: rest2 => some (.arr (v :: acc).reverse, rest2)
      | _ => none

end

/-- json::parse: the whole input must be consumed (up to trailing
whitespace); `none` models a json::parse_error being thrown. -/
def jsonParse (s : String) : Option Json :=
  match parseVal (2 * s.data.length + 4) s.data with
  | some (j, rest) => if skipWs rest = [] then some j else none
  | none => none

-- ---------------------------------------------------------------------------
-- JSON serialisation (nlohmann dump(), compact form)
-- ---------------------------------------------------------------------------

def hexDigitLower (n : Nat) : Char :=
  if n < 10 then Char.ofNat ('0'.toNat + n) else Char.ofNat ('a'.toNat + (n - 10))

/-- Escape one character as in nlohmann dump (ensure_ascii = false). -/
def escapeJsonChar (c : Char) : List Char :=
  if c = '\"' then ['\\', '\"']
  else if c = '\\' then ['\\', '\\']
  else if c = '\x08' then ['\\', 'b']
  else if c = '\x0c' then ['\\', 'f']
  else if c = '\n' then ['\\', 'n']
  else if c = '\r' then ['\\', 'r']
  else if c = '\t' then ['\\', 't']
  else if c.toNat < 32 then
    ['\\', 'u', '0', '0', hexDigitLower (c.toNat / 16), hexDigitLower (c.toNat % 16)]
  else [c]

def escapeJsonString (s : String) : String :=
  String.mk (s.data.flatMap escapeJsonChar)

mutual

/-- j.dump(): compact serialisation; object keys appear in sorted order
because object entry lists are kept sorted. -/
def Json.dump : Json → String
  | .null => "null"
  | .bool true => "true"
  | .bool false => "false"
  | .num n => toString n
  | .str s => "\"" ++ escapeJsonString s ++ "\""
  | .arr elems => "[" ++ dumpList elems ++ "]"
  | .obj entries => "\x7b" ++ dumpEntries entries ++ "\x7d"

def dumpList : List Json → String
  | [] => ""
  | [j] => Json.dump j
  | j :: rest => Json.dump j ++ "," ++ dumpList rest

def dumpEntries : List (String × Json) → String
  | [] => ""
  | [(k, v)] => "\"" ++ escapeJsonString k ++ "\":" ++ Json.dump v
  | (k, v) :: rest => "\"" ++ escapeJsonString k ++ "\":" ++ Json.dump v ++ "," ++ dumpEntries rest

end

-- ---------------------------------------------------------------------------
-- json_utils.cpp
-- ---------------------------------------------------------------------------

/-- The std::regex character class backslash-s (space, tab, newline,
carriage return, form feed, vertical tab). -/
def isRegexSpace (c : Char) : Bool :=
  c = ' ' || c = '\t' || c = '\n' || c = '\r' || c = '\x0c' || c = '\x0b'

/-- The parsed LLM reply record (types.h ParsedResponse). -/
structure ParsedResponse where
  thought : String := ""
  goal : String := ""
  answer : Option String := none
  toolName : Option String := none
  toolArgs : Option Json := none
  plan : Option Json := none

/-- extractFirstJsonObject scanning loop: brace depth with string and escape
awareness, ported statement by statement from json_utils.cpp.  The
accumulator holds the consumed characters in reverse. -/
def efjScan : List Char → Int → Bool → Bool → List Char → Option (List Char)
  | [], _, _, _, _ => none
  | c :: rest, count, inStr, esc, acc =>
    if esc then efjScan rest count inStr false (c :: acc)
    else if c = '\\' then efjScan rest count inStr true (c :: acc)
    else
      let inStr2 := if c = '\"' then !inStr else inStr
      if !inStr2 && c = '\x7b' then efjScan rest (count + 1) inStr2 false (c :: acc)
      else if !inStr2 && c = '\x7d' then
        if count - 1 = 0 then some (c :: acc).reverse
        else efjScan rest (count - 1) inStr2 false (c :: acc)
      else efjScan rest count inStr2 false (c :: acc)

/-- Bracket-matching extraction of the first complete JSON object
(json_utils.cpp extractFirstJsonObject).  Empty string when there is no
opening brace or no matching closing brace. -/
def extractFirstJsonObject (text : String) : String :=
  let suffix := text.data.dropWhile (fun c => c ≠ '\x7b')
  match suffix with
  | [] => ""
  | _ :: _ =>
    match efjScan suffix 0 false false [] with
    | some cs => String.mk cs
    | none => ""

/-- regex_replace of comma-whitespace-close with the close character, the
left-to-right non-overlapping replacement done by std::regex_replace.
Fueled recursion; the wrapper below supplies ample fuel. -/
def removeCommaBeforeAux (close : Char) : Nat → List Char → List Char
  | 0, cs => cs
  | _ + 1, [] => []
  | fuel + 1, c :: rest =>
    if c = ',' then
      match rest.dropWhile isRegexSpace with
      | c2 :: rest2 =>
        if c2 = close then close :: removeCommaBeforeAux close fuel rest2
        else c :: removeCommaBeforeAux close fuel rest
      | [] => c :: removeCommaBeforeAux close fuel rest
    else c :: removeCommaBeforeAux close fuel rest

def removeCommaBefore (close : Char) (cs : List Char) : List Char :=
  removeCommaBeforeAux close (cs.length + 1) cs

/-- fixCommonJsonErrors from json_utils.cpp: strip trailing commas, switch
single quotes to double quotes when no double quote is present, and drop
text before the first brace or bracket. -/
def fixCommonJsonErrors (text : String) : String :=
  let f1 := removeCommaBefore '\x7d' text.data
  let f2 := removeCommaBefore ']' f1
  let f3 :=
    if !f2.contains '\"' && f2.contains '\x27' then
      f2.map (fun c => if c = '\x27' then '\"' else c)
    else f2
  let f4 :=
    match f3.findIdx? (fun c => c = '\x7b' || c = '[') with
    | some idx => if idx > 0 then f3.drop idx else f3
    | none => f3
  String.mk f4

/-- Splits at the first occurrence of a literal pattern: the part before it
and the part after it. -/
def splitAtFirstOcc (pat : List Char) : List Char → Option (List Char × List Char)
  | [] => if pat = [] then some ([], []) else none
  | c :: rest =>
    if listStartsWith pat (c :: rest) then some ([], (c :: rest).drop pat.length)
    else
      match splitAtFirstOcc pat rest with
      | some (pre, post) => some (c :: pre, post)
      | none => none

def stripTrailingRegexWs (cs : List Char) : List Char :=
  (cs.reverse.dropWhile isRegexSpace).reverse

def openFence : List Char := ['\x60', '\x60', '\x60']

def jsonTag : List Char := ['j', 's', 'o', 'n']

/-- Successive captures of the triple-backtick code-block pattern of
extractJsonFromResponse, in sregex_iterator order: a match starts at the
leftmost remaining open fence that still has a closing fence, the optional
json tag is consumed greedily, and the lazy body capture runs to the first
closing fence with the whitespace wings absorbed. -/
def fenceCapturesAux : Nat → List Char → List String
  | 0, _ => []
  | fuel + 1, cs =>
    match splitAtFirstOcc openFence cs with
    | none => []
    | some (_, afterOpen) =>
      let afterTag := if listStartsWith jsonTag afterOpen then afterOpen.drop 4 else afterOpen
      let body := afterTag.dropWhile isRegexSpace
      match splitAtFirstOcc openFence body with
      | none => []
      | some (pre, afterClose) =>
        String.mk (stripTrailingRegexWs pre) :: fenceCapturesAux fuel afterClose

def tickOpen : List Char := ['\x60', 'j', 's', 'o', 'n']

/-- Captures of the single-backtick json pattern of extractJsonFromResponse. -/
def tickCapturesAux : Nat → List Char → List String
  | 0, _ => []
  | fuel + 1, cs =>
    match splitAtFirstOcc tickOpen cs with
    | none => []
    | some (_, afterOpen) =>
      let body := afterOpen.dropWhile isRegexSpace
      match splitAtFirstOcc ['\x60'] body with
      | none => []
      | some (pre, afterClose) =>
        String.mk (stripTrailingRegexWs pre) :: tickCapturesAux fuel afterClose

def xmlOpen : List Char := ['<', 'j', 's', 'o', 'n', '>']

def xmlClose : List Char := ['<', '/', 'j', 's', 'o', 'n', '>']

/-- Captures of the xml-style json tag pattern of extractJsonFromResponse. -/
def xmlCapturesAux : Nat → List Char → List String
  | 0, _ => []
  | fuel + 1, cs =>
    match splitAtFirstOcc xmlOpen cs with
    | none => []
    | some (_, afterOpen) =>
      let body := afterOpen.dropWhile isRegexSpace
      match splitAtFirstOcc xmlClose body with
      | none => []
      | some (pre, afterClose) =>
        String.mk (stripTrailingRegexWs pre) :: xmlCapturesAux fuel afterClose

def fenceCaps (s : String) : List String := fenceCapturesAux (s.data.length + 1) s.data

def tickCaps (s : String) : List String := tickCapturesAux (s.data.length + 1) s.data

def xmlCaps (s : String) : List String := xmlCapturesAux (s.data.length + 1) s.data

/-- Ensure tool_args exists if tool is present (the injection done inside
extractJsonFromResponse on both strategies). -/
def injectToolArgs (j : Json) : Json :=
  if j.contains "tool" && !(j.contains "tool_args") then
    j.setKey "tool_args" (Json.obj [])
  else j

/-- First capture (in strategy order) that parses to a JSON object. -/
def firstParsedObject : List String → Option Json
  | [] => none
  | cap :: rest =>
    match jsonParse cap with
    | some j => if j.isObj then some (injectToolArgs j) else firstParsedObject rest
    | none => firstParsedObject rest

/-- extractJsonFromResponse from json_utils.cpp: code-block patterns first,
bracket matching with inline trailing-comma repair second. -/
def extractJsonFromResponse (response : String) : Option Json :=
  let caps := fenceCaps response ++ tickCaps response ++ xmlCaps response
  match firstParsedObject caps with
  | some j => some j
  | none =>
    let extracted := extractFirstJsonObject response
    if extracted ≠ "" then
      let fixed := String.mk (removeCommaBefore ']' (removeCommaBefore '\x7d' extracted.data))
      match jsonParse fixed with
      | some j => if j.isObj then some (injectToolArgs j) else none
      | none => none
    else none

/-- Quoted key pattern for the last-resort field regexes of
parseLlmResponse. -/
def keyQuoted (key : String) : List Char :=
  '\"' :: (key.data ++ ['\"'])

/-- One attempt of the field regex (quoted key, colon, quoted value capture)
at the current position. -/
def fieldCaptureAt (keyPat cs : List Char) : Option String :=
  if listStartsWith keyPat cs then
    match (cs.drop keyPat.length).dropWhile isRegexSpace with
    | ':' :: r2 =>
      match r2.dropWhile isRegexSpace with
      | '\"' :: r4 =>
        let cap := r4.takeWhile (fun c => c ≠ '\"')
        if r4.drop cap.length ≠ [] then some (String.mk cap) else none
      | _ => none
    | _ => none
  else none

def fieldCaptureScan (keyPat : List Char) : List Char → Option String
  | [] => none
  | c :: rest =>
    match fieldCaptureAt keyPat (c :: rest) with
    | some s => some s
    | none => fieldCaptureScan keyPat rest

/-- Leftmost capture of the regex quoted-key colon quoted-string pattern
used by the last-resort extraction of parseLlmResponse. -/
def fieldStringCapture (key : String) (cs : List Char) : Option String :=
  fieldCaptureScan (keyQuoted key) cs

def toolArgsKeyPat : List Char := keyQuoted "tool_args"

def toolArgsKeyAt (cs : List Char) : Option (List Char) :=
  if listStartsWith toolArgsKeyPat cs then
    match (cs.drop toolArgsKeyPat.length).dropWhile isRegexSpace with
    | ':' :: r2 => some (r2.dropWhile isRegexSpace)
    | _ => none
  else none

/-- Remainder of the input after the leftmost match of the tool_args key
regex (match length includes the trailing whitespace wing). -/
def afterToolArgsKey : List Char → Option (List Char)
  | [] => none
  | c :: rest =>
    match toolArgsKeyAt (c :: rest) with
    | some rem => some rem
    | none => afterToolArgsKey rest

/-- Lift the fields of an extracted JSON object into a ParsedResponse
(shared shape of the direct-parse and extraction branches of
parseLlmResponse).  A non-string tool value makes get of std::string throw,
modelled as .error. -/
def liftParsed (j : Json) : Except String ParsedResponse := do
  let thought ← jValueString j "thought" ""
  let goal ← jValueString j "goal" ""
  let answer : Option String :=
    match j.get? "answer" with
    | some (.str s) => some s
    | some v => some v.dump
    | none => none
  let (toolName, toolArgs) ←
    match j.get? "tool" with
    | some t => do
        let name ← jGetString t
        pure (some name, some (jValueJson j "tool_args" (Json.obj [])))
    | none => pure ((none : Option String), (none : Option Json))
  let plan := j.get? "plan"
  pure { thought := thought, goal := goal, answer := answer,
         toolName := toolName, toolArgs := toolArgs, plan := plan }

/-- Fallback chain of parseLlmResponse after the direct JSON parse failed
or produced a non-object: extraction strategies, then field regexes, then
the whole trimmed input as a conversational answer. -/
def parseLlmFallback (trimmed : String) : Except String ParsedResponse :=
  match extractJsonFromResponse trimmed with
  | some j => liftParsed j
  | none =>
    match fieldStringCapture "answer" trimmed.data with
    | some a =>
      .ok { thought := (fieldStringCapture "thought" trimmed.data).getD "", answer := some a }
    | none =>
      match fieldStringCapture "tool" trimmed.data with
      | some t =>
        let thought := (fieldStringCapture "thought" trimmed.data).getD ""
        let args : Json :=
          match afterToolArgsKey trimmed.data with
          | some rem =>
            let argsJson := extractFirstJsonObject (String.mk rem)
            if argsJson ≠ "" then (jsonParse argsJson).getD (Json.obj []) else Json.obj []
          | none => Json.obj []
        .ok { thought := thought, toolName := some t, toolArgs := some args }
      | none => .ok { answer := some trimmed }

/-- The in-place trim of parseLlmResponse: when the input is all whitespace
the C++ leaves the string unchanged (that case is unreachable behind the
empty-response check). -/
def trimCpp (s : String) : String :=
  if s.data.all isJsonWs then s
  else String.mk ((s.data.dropWhile isJsonWs).reverse.dropWhile isJsonWs).reverse

def emptyApology : ParsedResponse :=
  { thought := "LLM returned empty response"
    goal := "Handle empty response error"
    answer := some "I apologize, but I received an empty response from the language model. Please try again." }

/-- parseLlmResponse from json_utils.cpp.  A .error result models an
exception escaping the C++ function (the only sources are the uncaught
type_error throws of get of std::string and value with string default on
non-string fields). -/
def parseLlmResponse (response : String) : Except String ParsedResponse :=
  if response.data.all isJsonWs then .ok emptyApology
  else
    let trimmed := trimCpp response
    if trimmed.data = [] || trimmed.data.head? ≠ some '\x7b' then
      .ok { answer := some trimmed }
    else
      match jsonParse trimmed with
      | some j =>
        if j.isObj then do
          let parsed ← liftParsed j
          -- belt-and-braces injection of the direct branch; a no-op since
          -- liftParsed always pairs toolArgs with toolName
          let parsed :=
            if parsed.toolName.isSome && parsed.toolArgs.isNone then
              { parsed with toolArgs := some (Json.obj []) }
            else parsed
          pure parsed
        else parseLlmFallback trimmed
      | none => parseLlmFallback trimmed

/-- One attempt of the validateJsonResponse code-block regex at the current
position: open fence, optional json tag, whitespace, then a brace-delimited
capture whose lazy end is the first closing brace followed by whitespace
and a closing fence. -/
def codeBlockTryAt (cs : List Char) : Option (List Char) :=
  if listStartsWith openFence cs then
    let r1 := cs.drop 3
    let r2 := if listStartsWith jsonTag r1 then r1.drop 4 else r1
    match r2.dropWhile isRegexSpace with
    | '\x7b' :: rest => closeBraceScan (rest.length + 1) ['\x7b'] rest
    | _ => none
  else none
where
  closeBraceScan : Nat → List Char → List Char → Option (List Char)
    | 0, _, _ => none
    | _ + 1, _, [] => none
    | fuel + 1, acc, c :: rest =>
      if c = '\x7d' && listStartsWith openFence (rest.dropWhile isRegexSpace) then
        some (c :: acc).reverse
      else closeBraceScan fuel (c :: acc) rest

/-- Leftmost match of the validateJsonResponse code-block regex
(regex_search semantics: every start position is tried in order). -/
def codeBlockSearch : Nat → List Char → Option (List Char)
  | 0, _ => none
  | fuel + 1, cs =>
    match codeBlockTryAt cs with
    | some cap => some cap
    | none =>
      match cs with
      | [] => none
      | _ :: t => codeBlockSearch fuel t

/-- The four parse attempts of validateJsonResponse in order: as-is, code
block, bracket matching, common-error repair (the repair only reparsed when
it changed the text). -/
def validateParseStage (responseText : String) : Option Json :=
  match jsonParse responseText with
  | some r => some r
  | none =>
    match (codeBlockSearch (responseText.data.length + 1) responseText.data).bind
        (fun cap => jsonParse (String.mk cap)) with
    | some r => some r
    | none =>
      let extracted := extractFirstJsonObject responseText
      match (if extracted ≠ "" then jsonParse extracted else none) with
      | some r => some r
      | none =>
        let fixed := fixCommonJsonErrors responseText
        if fixed ≠ responseText then jsonParse fixed else none

/-- validateJsonResponse from json_utils.cpp.  The C++ appends the initial
parse-error detail to the failure message; the model keeps the fixed
prefix.  The required-field validation at the end rejects an object with
answer but no thought. -/
def validateJsonResponse (responseText : String) : Except String Json :=
  match validateParseStage responseText with
  | none => .error "Failed to parse response as JSON"
  | some result =>
    if result.contains "answer" then
      if !(result.contains "thought") then
        .error "Response is missing required field: thought"
      else .ok result
    else if result.contains "tool" then
      if !(result.contains "thought") || !(result.contains "tool_args") then
        let result2 :=
          if !(result.contains "tool_args") then result.setKey "tool_args" (Json.obj [])
          else result
        if !(result.contains "thought") then
          .error "Response is missing required field: thought"
        else .ok result2
      else .ok result
    else .ok result

-- ---------------------------------------------------------------------------
-- types.h and tool_registry.cpp
-- ---------------------------------------------------------------------------

inductive AgentState where
  | planning
  | executingPlan
  | directExecution
  | errorRecovery
  | completion
deriving DecidableEq

inductive MessageRole where
  | system
  | user
  | assistant
  | tool
deriving DecidableEq

structure Message where
  role : MessageRole
  content : String
  name : Option String := none
  toolCallId : Option String := none
deriving DecidableEq

inductive ToolParamType where
  | string
  | integer
  | number
  | boolean
  | array
  | object
  | unknown
deriving DecidableEq

structure ToolParameter where
  name : String
  type : ToolParamType := .unknown
  required : Bool := true
  description : String := ""
deriving DecidableEq

/-- Tool descriptor (types.h ToolInfo).  The std::function callback is
modelled as an optional Lean function whose .error result stands for a
thrown std::exception; an absent callback models an empty std::function. -/
structure ToolInfo where
  name : String
  description : String := ""
  parameters : List ToolParameter := []
  callback : Option (Json → Except String Json) := none
  atomic : Bool := false
  mcpServer : Option String := none
  mcpToolName : Option String := none

/-- Agent configuration (types.h AgentConfig) with its C++ defaults. -/
structure AgentConfig where
  baseUrl : String := "http://localhost:8000/api/v1"
  modelId : String := "Qwen3-4B-GGUF"
  maxSteps : Int := 20
  maxPlanIterations : Int := 3
  maxConsecutiveRepeats : Int := 4
  maxHistoryMessages : Int := 40
  contextSize : Int := 16384
  debug : Bool := false
  showPrompts : Bool := false
  streaming : Bool := false
  silentMode : Bool := false

/-- The registry map (std::map of name to ToolInfo): an association list
kept sorted by key through regInsert. -/
abbrev Registry := List (String × ToolInfo)

def regNames (r : Registry) : List String :=
  r.map Prod.fst

/-- tools_.count(name) as a Bool. -/
def regContains (r : Registry) (name : String) : Bool :=
  r.any (fun p => p.1 = name)

/-- std::map emplace position (sorted by key; never called on a present
key by registerTool). -/
def regInsert (name : String) (info : ToolInfo) : Registry → Registry
  | [] => [(name, info)]
  | (k, w) :: rest =>
    if strLt name k then (name, info) :: (k, w) :: rest
    else (k, w) :: regInsert name info rest

/-- ToolRegistry::registerTool: throws (models as .error) when the name is
already present, before any mutation; otherwise inserts. -/
def registerTool (r : Registry) (info : ToolInfo) : Except String Registry :=
  if regContains r info.name then .error ("Tool already registered: " ++ info.name)
  else .ok (regInsert info.name info r)

/-- ToolRegistry::findTool: exact lookup. -/
def findTool (r : Registry) (name : String) : Option ToolInfo :=
  match r with
  | [] => none
  | (k, w) :: rest => if k = name then some w else findTool rest name

/-- std::tolower in the C locale, applied per character. -/
def asciiLower (c : Char) : Char :=
  if 'A' ≤ c && c ≤ 'Z' then Char.ofNat (c.toNat + 32) else c

def strLower (s : String) : String :=
  String.mk (s.data.map asciiLower)

/-- The substr-compare suffix test of ToolRegistry::resolveName. -/
def endsWithSuffix (suffix cs : List Char) : Bool :=
  cs.length ≥ suffix.length && cs.drop (cs.length - suffix.length) = suffix

/-- Stage one of resolveName: registered names whose lowercase form ends
with underscore plus the lowercased query. -/
def resolveCandidatesSuffix (r : Registry) (name : String) : List String :=
  let suffix := ("_" ++ strLower name).data
  (regNames r).filter (fun n => endsWithSuffix suffix (strLower n).data)

/-- Stage two of resolveName: registered names whose lowercase form equals
the lowercased query. -/
def resolveCandidatesExact (r : Registry) (name : String) : List String :=
  (regNames r).filter (fun n => strLower n = strLower name)

/-- ToolRegistry::resolveName: unique suffix match first, unique exact
case-insensitive match second, empty string otherwise. -/
def resolveName (r : Registry) (name : String) : String :=
  match resolveCandidatesSuffix r name with
  | [x] => x
  | _ =>
    match resolveCandidatesExact r name with
    | [y] => y
    | _ => ""

/-- The error result object shape used by ToolRegistry::executeTool
(nlohmann object literal; entries land in sorted key order). -/
def errorResult (msg : String) : Json :=
  Json.obj [("error", Json.str msg), ("status", Json.str "error")]

/-- ToolRegistry::executeTool: exact lookup, then fuzzy resolution, then
callback invocation with thrown std::exception converted to the error
result shape. -/
def executeTool (r : Registry) (name : String) (args : Json) : Json :=
  let tool :=
    match findTool r name with
    | some t => some t
    | none =>
      let resolved := resolveName r name
      if resolved ≠ "" then findTool r resolved else none
  match tool with
  | none => errorResult ("Tool \x27" ++ name ++ "\x27 not found")
  | some t =>
    match t.callback with
    | none => errorResult ("Tool \x27" ++ name ++ "\x27 has no callback")
    | some cb =>
      match cb args with
      | .ok j => j
      | .error e => errorResult ("Tool execution failed: " ++ e)

-- ---------------------------------------------------------------------------
-- agent.cpp: the processQuery execution loop
-- ---------------------------------------------------------------------------

/-- Environment of one processQuery run.  llm gives the outcome of the n-th
callLlm attempt (attempts are counted across retries; .error models the
HTTP call or response handling throwing).  exec is tools_.executeTool,
which is total (the registry converts callback exceptions to error-result
objects). -/
structure LlmEnv where
  llm : Nat → Except String String
  exec : String → Json → Json

/-- The loop-local state of processQuery. -/
structure LoopSt where
  messages : List Message
  stepsTaken : Int
  llmCalls : Nat
  finalAnswer : String
  errorCount : Int
  lastError : String
  executionState : AgentState
  stepResults : List Json
  toolCallHistory : List (String × Json)

/-- Result of one iteration of the while loop: break out or continue. -/
inductive StepRes where
  | brk (st : LoopSt)
  | cont (st : LoopSt)

def StepRes.state : StepRes → LoopSt
  | .brk st => st
  | .cont st => st

/-- The ERROR RECOVERY user message injected at the top of an iteration. -/
def recoveryContent (lastError userInput : String) : String :=
  "TOOL EXECUTION FAILED!\n\nError: " ++ lastError ++
  "\n\nOriginal task: " ++ userInput ++
  "\n\nPlease analyze the error and try an alternative approach.\n" ++
  "Respond with \x7b\"thought\": \"...\", \"goal\": \"...\", \"tool\": \"...\", \"tool_args\": \x7b...\x7d\x7d"

/-- The loop-detection check of processQuery: at least four recorded calls
and the last three recorded names (and the most recent one) equal the
requested name.  The threshold is the literal 4 of agent.cpp. -/
def loopDetect (hist : List (String × Json)) (toolName : String) : Bool :=
  if hist.length ≥ 4 then
    (hist.drop (hist.length - 3)).all (fun p => p.1 = toolName) &&
      (match hist.getLast? with
       | some p => p.1 = toolName
       | none => false)
  else false

/-- The middle-ellipsis truncation of a tool result string (character
counts stand in for the byte counts of std::string). -/
def truncateToolResult (s : String) : String :=
  if s.length > 20000 then
    String.mk (s.data.take 10000) ++ "\n...[truncated]...\n" ++
      String.mk (s.data.drop (s.data.length - 5000))
  else s

/-- The is_object guarded status check of a tool result
(toolResult.is_object() and value of status equals error); the value call
can throw on a non-string status field. -/
def toolResultStatus (toolResult : Json) : Except String Bool :=
  if toolResult.isObj then
    match jValueString toolResult "status" "" with
    | .ok s => .ok (s == "error")
    | .error e => .error e
  else .ok false

/-- Tool dispatch part of one loop iteration: execute, record the call and
result, append the tool-role message, and enter error recovery when the
result object carries status error. -/
def dispatchTool (env : LlmEnv) (st : LoopSt) (toolName : String) (toolArgs : Json) :
    Except String StepRes :=
  let toolResult := env.exec toolName toolArgs
  let resultStr := truncateToolResult toolResult.dump
  let st2 := { st with
    toolCallHistory := st.toolCallHistory ++ [(toolName, toolArgs)],
    stepResults := st.stepResults ++ [toolResult],
    messages := st.messages ++ [{ role := .tool, content := resultStr, name := some toolName }] }
  match toolResultStatus toolResult with
  | .error e => .error e
  | .ok isError =>
    if isError then
      match jValueString toolResult "error" "Unknown error" with
      | .error e => .error e
      | .ok le =>
        .ok (.cont { st2 with
          errorCount := st2.errorCount + 1,
          lastError := le,
          executionState := .errorRecovery })
    else .ok (.cont st2)

/-- Handling of one LLM reply: append it, parse it, then dispatch on
answer, tool call, or conversational fallback. -/
def stepWithResponse (env : LlmEnv) (st : LoopSt) (response : String) :
    Except String StepRes :=
  let st := { st with messages := st.messages ++ [{ role := .assistant, content := response }] }
  match parseLlmResponse response with
  | .error e => .error e
  | .ok parsed =>
    match parsed.answer with
    | some a => .ok (.brk { st with finalAnswer := a })
    | none =>
      match parsed.toolName with
      | some toolName =>
        let toolArgs := parsed.toolArgs.getD (Json.obj [])
        if loopDetect st.toolCallHistory toolName then
          .ok (.brk { st with finalAnswer := "Task stopped due to repeated tool call loop." })
        else dispatchTool env st toolName toolArgs
      | none => .ok (.brk { st with finalAnswer := response })

/-- Top of one loop iteration before the LLM call: increment the step
counter, then inject the error recovery prompt and reset when entering in
the ERROR RECOVERY state. -/
def preLlmState (userInput : String) (st : LoopSt) : LoopSt :=
  let st := { st with stepsTaken := st.stepsTaken + 1 }
  if st.executionState = AgentState.errorRecovery then
    { st with
      messages := st.messages ++
        [{ role := .user, content := recoveryContent st.lastError userInput }],
      executionState := .planning,
      stepResults := [] }
  else st

/-- One iteration of the while loop of processQuery: step counter, error
recovery injection, LLM call with a single retry, then reply handling. -/
def agentStep (env : LlmEnv) (userInput : String) (st : LoopSt) : Except String StepRes :=
  let st := preLlmState userInput st
  match env.llm st.llmCalls with
  | .ok response => stepWithResponse env { st with llmCalls := st.llmCalls + 1 } response
  | .error _ =>
    match env.llm (st.llmCalls + 1) with
    | .ok response => stepWithResponse env { st with llmCalls := st.llmCalls + 2 } response
    | .error e2 =>
      .ok (.brk { st with
        llmCalls := st.llmCalls + 2,
        finalAnswer := "Unable to complete task due to LLM error: " ++ e2 })

/-- The while loop of processQuery.  The fuel only bounds recursion; the
C++ loop guard is re-checked on entry, and processQuery supplies fuel equal
to the steps limit, which the step counter can never outrun. -/
def runLoop (env : LlmEnv) (userInput : String) (stepsLimit : Int) :
    Nat → LoopSt → Except String LoopSt
  | 0, st => .ok st
  | fuel + 1, st =>
    if st.stepsTaken < stepsLimit ∧ st.finalAnswer = "" then
      match agentStep env userInput st with
      | .error e => .error e
      | .ok (.brk st2) => .ok st2
      | .ok (.cont st2) => runLoop env userInput stepsLimit fuel st2
    else .ok st

/-- Observable outcome of processQuery: the returned JSON fields (result,
steps_taken, steps_limit), the persisted conversation history, and
instrumentation projections of the final loop state (the raw turn messages
before persistence rewriting, the dispatched tool calls, and the loop
final-answer string whose emptiness marks exhaustion without an answer). -/
structure QueryOutcome where
  result : String
  stepsTaken : Int
  stepsLimit : Int
  history : List Message
  rawMessages : List Message
  toolCalls : List (String × Json)
  loopAnswer : String

/-- The persistence rewrite of processQuery: a tool-role message becomes a
user-role message carrying the result marker, with name and tool_call_id
cleared. -/
def rewriteToolMsg (m : Message) : Message :=
  if m.role = .tool then
    { role := .user, content := "[Result from " ++ m.name.getD "tool" ++ "]: " ++ m.content }
  else m

/-- The history trim of processQuery: drop the oldest messages down to the
ceiling when the ceiling is positive. -/
def pruneHistory (maxHistoryMessages : Int) (msgs : List Message) : List Message :=
  if maxHistoryMessages > 0 ∧ (msgs.length : Int) > maxHistoryMessages then
    msgs.drop ((msgs.length : Int) - maxHistoryMessages).toNat
  else msgs

/-- The effective steps limit: the positive maxSteps argument, else the
configured maximum. -/
def queryLimit (cfg : AgentConfig) (maxSteps : Int) : Int :=
  if maxSteps > 0 then maxSteps else cfg.maxSteps

/-- The loop state at the top of processQuery: prior history plus the new
user message, counters reset. -/
def initLoopSt (history0 : List Message) (userInput : String) : LoopSt :=
  { messages := history0 ++ [{ role := .user, content := userInput }],
    stepsTaken := 0, llmCalls := 0, finalAnswer := "", errorCount := 0,
    lastError := "", executionState := .planning, stepResults := [],
    toolCallHistory := [] }

/-- The epilogue of processQuery after the loop: synthesize the
max-steps answer when the loop produced none, rewrite and trim the history
for persistence, and assemble the returned record. -/
def finishQuery (cfg : AgentConfig) (stepsLimit : Int) (st : LoopSt) : QueryOutcome :=
  { result :=
      if st.finalAnswer = "" then
        "Reached maximum steps limit (" ++ toString stepsLimit ++ " steps)."
      else st.finalAnswer,
    stepsTaken := st.stepsTaken,
    stepsLimit := stepsLimit,
    history := pruneHistory cfg.maxHistoryMessages (st.messages.map rewriteToolMsg),
    rawMessages := st.messages,
    toolCalls := st.toolCallHistory,
    loopAnswer := st.finalAnswer }

/-- Agent::processQuery.  A .error result models an exception escaping the
C++ function (the parser type_error throws are the only modelled source). -/
def processQuery (cfg : AgentConfig) (env : LlmEnv) (history0 : List Message)
    (userInput : String) (maxSteps : Int) : Except String QueryOutcome :=
  (runLoop env userInput (queryLimit cfg maxSteps) (queryLimit cfg maxSteps).toNat
      (initLoopSt history0 userInput)).map
    (finishQuery cfg (queryLimit cfg maxSteps))

-- ---------------------------------------------------------------------------
-- agent.cpp and mcp_client.cpp: MCP attach, dispatch and reconnect
-- ---------------------------------------------------------------------------

/-- A remote tool schema as returned by tools/list
(mcp_client.h MCPToolSchema). -/
structure McpToolSchema where
  name : String
  description : String := ""
  inputSchema : Json := Json.obj []

/-- The structured-bindings items() iteration of nlohmann::json: object
entries with their keys (sorted, as the object map is), array elements with
index keys, nothing for null, and a single element with an empty-string key
for other primitives. -/
def jsonItems : Json → List (String × Json)
  | .obj entries => entries
  | .arr elems => elems.enum.map (fun p => (toString p.1, p.2))
  | .null => []
  | j => [("", j)]

/-- The range-for iteration of nlohmann::json over values. -/
def jsonRangeValues : Json → List Json
  | .arr elems => elems
  | .obj entries => entries.map Prod.snd
  | .null => []
  | j => [j]

/-- The required-membership scan of MCPToolSchema::toToolInfo: get of
std::string on each element (throwing on a non-string encountered before a
match), stopping at the first match. -/
def requiredContains (paramName : String) : List Json → Except String Bool
  | [] => .ok false
  | req :: rest => do
    let s ← jGetString req
    if s = paramName then .ok true else requiredContains paramName rest

/-- The JSON Schema type tag mapping of toToolInfo; unmatched tags leave
the ToolParameter default (unknown). -/
def schemaTypeToParamType (typeStr : String) : ToolParamType :=
  if typeStr = "string" then .string
  else if typeStr = "integer" then .integer
  else if typeStr = "number" then .number
  else if typeStr = "boolean" then .boolean
  else if typeStr = "array" then .array
  else if typeStr = "object" then .object
  else .unknown

/-- The properties translation loop of MCPToolSchema::toToolInfo; the
parameter list stays empty when the schema has no properties member.  The
per-property value() calls have no is_object guard in the C++, so a
non-object property value makes them throw type_error.306 (modelled by
jValueStringOrThrow), a throw that escapes toToolInfo and reaches the outer
catch of connectMcpServer.  The value() read of required is guarded de
facto: it happens only under contains, which holds for objects alone. -/
def toToolInfoParams (sch : McpToolSchema) : Except String (List ToolParameter) :=
  if sch.inputSchema.contains "properties" then
    let required := jValueJson sch.inputSchema "required" (Json.arr [])
    (jsonItems ((sch.inputSchema.get? "properties").getD Json.null)).mapM (fun pv => do
      let desc ← jValueStringOrThrow pv.2 "description" ""
      let typeStr ← jValueStringOrThrow pv.2 "type" "string"
      let reqFlag ← requiredContains pv.1 (jsonRangeValues required)
      pure ({ name := pv.1, type := schemaTypeToParamType typeStr,
              required := reqFlag, description := desc } : ToolParameter))
  else .ok []

/-- MCPToolSchema::toToolInfo: prefixed name, tagged description, and
parameters translated from the input schema properties. -/
def toToolInfo (serverName : String) (sch : McpToolSchema) : Except String ToolInfo := do
  let params ← toToolInfoParams sch
  pure {
    name := "mcp_" ++ serverName ++ "_" ++ sch.name,
    description := "[MCP:" ++ serverName ++ "] " ++ sch.description,
    parameters := params,
    atomic := true,
    mcpServer := some serverName,
    mcpToolName := some sch.name }

/-- The registration loop of Agent::connectMcpServer: each enumerated tool
is translated, given a dispatch callback, and registered, with the
duplicate-name throw of registerTool caught and skipped.  A toToolInfo
throw escapes the loop (it is caught by the outer catch of
connectMcpServer, which then reports failure); the registry keeps the
registrations made before the throw. -/
def connectRegisterTools (server : String) (cb : String → Json → Except String Json) :
    Registry → List McpToolSchema → Registry × Option String
  | r, [] => (r, none)
  | r, sch :: rest =>
    match toToolInfo server sch with
    | .error e => (r, some e)
    | .ok info0 =>
      let info := { info0 with callback := some (cb sch.name) }
      match registerTool r info with
      | .ok r2 => connectRegisterTools server cb r2 rest
      | .error _ => connectRegisterTools server cb r rest

/-- Agent::connectMcpServer, abstracted over the transport: connectOk is
the outcome of client connect (a false return leaves the registry
untouched), and the schemas are the tools/list result.  Returns the success
flag and the updated registry. -/
def connectMcpServer (connectOk : Bool) (server : String)
    (cb : String → Json → Except String Json) (r : Registry)
    (schemas : List McpToolSchema) : Bool × Registry :=
  if connectOk then
    match connectRegisterTools server cb r schemas with
    | (r2, none) => (true, r2)
    | (r2, some _) => (false, r2)
  else (false, r)

/-- Environment of one Agent::callMcpTool invocation, abstracting the
MCPClient and its subprocess transport: whether the named client exists and
reports connected, the outcome of the first callTool (.error models a
thrown transport runtime_error), whether a spawn config was saved, the
outcome of the client rebuild and connect inside reconnectMcpServer
(.error models an exception there, caught and reported as failure), and
the outcome of the retried callTool. -/
structure McpCallEnv where
  clientPresent : Bool
  connected : Bool
  firstCall : Except String Json
  configPresent : Bool
  reconnect : Except String Bool
  secondCall : Except String Json

/-- Agent::reconnectMcpServer: false without a saved config; otherwise the
rebuild outcome, with exceptions caught into failure. -/
def reconnectMcpServer (env : McpCallEnv) : Bool :=
  if env.configPresent then
    match env.reconnect with
    | .ok b => b
    | .error _ => false
  else false

/-- Observable trace of one callMcpTool run: the returned JSON and how many
reconnect attempts and callTool invocations were made. -/
structure McpCallTrace where
  result : Json
  reconnectAttempts : Nat
  callAttempts : Nat

/-- Agent::callMcpTool: happy-path call when connected, then exactly one
reconnect attempt and exactly one retry, with all failures returned as
error-field objects rather than thrown. -/
def callMcpTool (env : McpCallEnv) (serverName : String) : McpCallTrace :=
  if env.clientPresent then
    match (if env.connected then some env.firstCall else none) with
    | some (.ok j) => { result := j, reconnectAttempts := 0, callAttempts := 1 }
    | other =>
      let firstAttempts := match other with
        | some _ => 1
        | none => 0
      if reconnectMcpServer env then
        match env.secondCall with
        | .ok j => { result := j, reconnectAttempts := 1, callAttempts := firstAttempts + 1 }
        | .error e =>
          { result := Json.obj [("error", Json.str ("MCP tool call failed after reconnect: " ++ e))],
            reconnectAttempts := 1, callAttempts := firstAttempts + 1 }
      else
        { result := Json.obj [("error", Json.str
            ("MCP server \x27" ++ serverName ++ "\x27 disconnected and reconnect failed"))],
          reconnectAttempts := 1, callAttempts := firstAttempts }
  else
    { result := Json.obj [("error", Json.str ("MCP server \x27" ++ serverName ++ "\x27 not found"))],
      reconnectAttempts := 0, callAttempts := 0 }

def exceptIsOk {α : Type} : Except String α → Bool
  | .ok _ => true
  | .error _ => false

-- ---------------------------------------------------------------------------
-- Claim C1
-- ---------------------------------------------------------------------------

/-- The claim C1 failing input: a JSON object whose tool field is a number. -/
def nonStringToolInput : String := "\x7b\"tool\": 123\x7d"

/-- C1: the claim states that parseLlmResponse returns a record for every
input and never throws, in particular for JSON objects whose tool field has
a non-string type.  The code contradicts this: on an object with a numeric
tool field the direct-parse branch calls get of std::string on it, which
throws a json type_error that is not caught (the catch clauses only cover
parse_error), so the exception escapes parseLlmResponse.  The theorem
evaluates the embedded parser at that input and shows the escaping throw. -/
theorem parseLlmResponse_throws_on_nonstring_tool :
    parseLlmResponse nonStringToolInput = .error "type_error: type must be string" := rfl

-- ---------------------------------------------------------------------------
-- Claim C5
-- ---------------------------------------------------------------------------

/-- The exact input of claim C5: prose, then a fenced json block. -/
def fencedAnswerInput : String :=
  "Here\x27s the result:\n```json\n\x7b\"thought\":\"a\",\"answer\":\"42\"\x7d\n```"

/-- C5 counterexample: the claim predicts answer 42, but the parser returns
the whole input as the answer, because the plain-text fast path (trimmed
input does not start with a brace) returns before any fenced-block
extraction is attempted. -/
theorem parseLlmResponse_fenced_input_not_42 :
    (parseLlmResponse fencedAnswerInput).map ParsedResponse.answer ≠ .ok (some "42") := by
  have h : (parseLlmResponse fencedAnswerInput).map ParsedResponse.answer
      = .ok (some fencedAnswerInput) := rfl
  rw [h]
  intro hc
  have h2 : some fencedAnswerInput = some "42" := by
    injection hc
  have h3 : fencedAnswerInput = "42" := by
    injection h2
  exact absurd h3 (by decide)

/-- C5 amended: feeding the parser the fenced input yields a ParsedResponse
whose answer is the whole (trimmed) input, since the plain-text fast path
fires first; the fenced-block strategy itself (extractJsonFromResponse)
would have extracted the object with answer 42, but parseLlmResponse only
reaches it when the trimmed input starts with a brace. -/
theorem parseLlmResponse_fenced_input_plain_text :
    (parseLlmResponse fencedAnswerInput).map ParsedResponse.answer = .ok (some fencedAnswerInput) ∧
    extractJsonFromResponse fencedAnswerInput
      = some (Json.obj [("answer", Json.str "42"), ("thought", Json.str "a")]) :=
  ⟨rfl, rfl⟩

-- ---------------------------------------------------------------------------
-- Claim C6
-- ---------------------------------------------------------------------------

/-- A reply object carrying answer but no thought. -/
def answerOnlyInput : String := "\x7b\"answer\": \"x\"\x7d"

/-- C6 counterexample: the direct-parse layer of parseLlmResponse yields an
object containing answer but not thought, and that object is accepted as
the parse result (answer lifted, thought defaulted to empty) instead of
being rejected with descent to the next strategy as the claim states. -/
theorem parseLlmResponse_accepts_answer_without_thought :
    jsonParse answerOnlyInput = some (Json.obj [("answer", Json.str "x")]) ∧
    (parseLlmResponse answerOnlyInput).map ParsedResponse.answer = .ok (some "x") ∧
    (parseLlmResponse answerOnlyInput).map ParsedResponse.thought = .ok "" :=
  ⟨rfl, rfl, rfl⟩

/-- C6 amended: the answer-requires-thought validation lives only in
validateJsonResponse (which parseLlmResponse never calls): whenever its
parse stage, that is any of its four parse attempts embedded as
validateParseStage (as-is, code-block extraction, bracket matching, or the
common-error repair), yields an object with answer but no thought, it
throws the missing-field error; parseLlmResponse instead accepts such
objects with an empty thought, as the counterexample shows. -/
theorem validateJsonResponse_rejects_answer_without_thought :
    ∀ (s : String) (j : Json), validateParseStage s = some j →
      j.contains "answer" = true → j.contains "thought" = false →
      validateJsonResponse s = .error "Response is missing required field: thought" := by
  intro s j hp ha ht
  unfold validateJsonResponse
  rw [hp]
  simp [ha, ht]

/-- Witness for the C6 amended theorem at an input that the first three
parse attempts reject and the trailing-comma repair attempt turns into an
answer-only object. -/
theorem validateJsonResponse_rejects_witness :
    validateJsonResponse "\x7b\"answer\": \"hello\", \x7d"
      = .error "Response is missing required field: thought" :=
  validateJsonResponse_rejects_answer_without_thought
    "\x7b\"answer\": \"hello\", \x7d" (Json.obj [("answer", Json.str "hello")]) rfl rfl rfl

-- ---------------------------------------------------------------------------
-- Claim C8
-- ---------------------------------------------------------------------------

/-- C8: registering a tool whose name is already present fails at
registration time with the duplicate error, and no updated registry is
produced: in the C++ the throw happens before the emplace, so the map is
untouched; in this state-passing model that reads as the call returning
only the error and never an .ok registry, leaving the caller with the
registry it already had (same size, same descriptors). -/
theorem registerTool_duplicate_fails :
    ∀ (r : Registry) (info : ToolInfo), regContains r info.name = true →
      registerTool r info = .error ("Tool already registered: " ++ info.name) ∧
      ∀ r2, registerTool r info ≠ .ok r2 := by
  intro r info h
  refine ⟨by simp [registerTool, h], ?_⟩
  intro r2 hc
  simp [registerTool, h] at hc

def echoInfo : ToolInfo :=
  { name := "echo", description := "echo tool", callback := some (fun j => .ok j) }

def oneToolReg : Registry := [("echo", echoInfo)]

/-- Witness for C8: a registry already holding echo rejects a second echo
registration. -/
theorem registerTool_duplicate_witness :
    registerTool oneToolReg echoInfo = .error ("Tool already registered: " ++ echoInfo.name) ∧
    ∀ r2, registerTool oneToolReg echoInfo ≠ .ok r2 :=
  registerTool_duplicate_fails oneToolReg echoInfo rfl

-- ---------------------------------------------------------------------------
-- Claim C7
-- ---------------------------------------------------------------------------

/-- A registry holding a tool registered under the empty name (registerTool
does not validate names, so this state is reachable). -/
def emptyNameReg : Registry := [("", { name := "" })]

/-- C7 counterexample: with a tool registered under the empty name and the
empty query, the suffix stage has no candidate and the exact stage has
exactly one, so the claim asserts a non-empty name is returned; resolveName
instead returns the empty string (the unique match itself), indistinguishable
from no match. -/
theorem resolveName_empty_name_cex :
    resolveName emptyNameReg "" = "" ∧
    (resolveCandidatesSuffix emptyNameReg "").length ≠ 1 ∧
    (resolveCandidatesExact emptyNameReg "").length = 1 :=
  ⟨rfl, by decide, rfl⟩

/-- C7 amended: over registries whose registered names are all non-empty
(the counterexample registry has an empty-named tool), resolveName returns
either a registered name or the empty string, and returns a non-empty name
exactly when the suffix stage has exactly one candidate or, failing that,
the exact stage has exactly one; in particular a query with two or more
candidates at both stages yields the empty string. -/
theorem resolveName_unique_match :
    ∀ (r : Registry) (q : String), (∀ n ∈ regNames r, n ≠ "") →
      (resolveName r q = "" ∨ resolveName r q ∈ regNames r) ∧
      (resolveName r q ≠ "" ↔
        ((resolveCandidatesSuffix r q).length = 1 ∨
         ((resolveCandidatesSuffix r q).length ≠ 1 ∧
          (resolveCandidatesExact r q).length = 1))) := by
  intro r q hne
  rcases h1 : resolveCandidatesSuffix r q with _ | ⟨x, _ | ⟨x2, xs⟩⟩
  · rcases h2 : resolveCandidatesExact r q with _ | ⟨y, _ | ⟨y2, ys⟩⟩
    · simp [resolveName, h1, h2]
    · have hy0 : y ∈ resolveCandidatesExact r q := by
        rw [h2]; exact List.mem_cons_self y []
      have hy : y ∈ regNames r := List.mem_of_mem_filter hy0
      simp [resolveName, h1, h2, hy, hne y hy]
    · simp [resolveName, h1, h2]
  · have hx0 : x ∈ resolveCandidatesSuffix r q := by
      rw [h1]; exact List.mem_cons_self x []
    have hx : x ∈ regNames r := List.mem_of_mem_filter hx0
    simp [resolveName, h1, hx, hne x hx]
  · rcases h2 : resolveCandidatesExact r q with _ | ⟨y, _ | ⟨y2, ys⟩⟩
    · simp [resolveName, h1, h2]
    · have hy0 : y ∈ resolveCandidatesExact r q := by
        rw [h2]; exact List.mem_cons_self y []
      have hy : y ∈ regNames r := List.mem_of_mem_filter hy0
      simp [resolveName, h1, h2, hy, hne y hy]
    · simp [resolveName, h1, h2]

def shellInfo : ToolInfo := { name := "mcp_win_Shell", description := "shell" }

def mcpToolReg : Registry := [("mcp_win_Shell", shellInfo)]

/-- Witness for the C7 amended theorem: the unprefixed lowercase query
shell resolves against the single registered mcp_win_Shell. -/
theorem resolveName_unique_match_witness :
    (resolveName mcpToolReg "shell" = "" ∨ resolveName mcpToolReg "shell" ∈ regNames mcpToolReg) ∧
    (resolveName mcpToolReg "shell" ≠ "" ↔
      ((resolveCandidatesSuffix mcpToolReg "shell").length = 1 ∨
       ((resolveCandidatesSuffix mcpToolReg "shell").length ≠ 1 ∧
        (resolveCandidatesExact mcpToolReg "shell").length = 1))) :=
  resolveName_unique_match mcpToolReg "shell" (by decide)

-- ---------------------------------------------------------------------------
-- Claim C9
-- ---------------------------------------------------------------------------

/-- C9: when the named client exists and the call hits a transport error or
a disconnected client, callMcpTool performs exactly one reconnect attempt;
when the reconnect succeeds the call is retried exactly once (one retry on
top of the one failed original when it was connected); and when the
reconnect fails or the retried call throws again, the returned JSON carries
an error field instead of an exception escaping the dispatch. -/
theorem callMcpTool_one_reconnect_one_retry :
    ∀ (env : McpCallEnv) (s : String),
      env.clientPresent = true →
      (env.connected = false ∨ ∃ e, env.firstCall = .error e) →
      (callMcpTool env s).reconnectAttempts = 1 ∧
      (reconnectMcpServer env = true →
        (callMcpTool env s).callAttempts = (if env.connected then 2 else 1)) ∧
      (reconnectMcpServer env = false → (callMcpTool env s).result.contains "error" = true) ∧
      (∀ e2, env.secondCall = .error e2 →
        (callMcpTool env s).result.contains "error" = true) := by
  intro env s hcp hfail
  have hconn : (if env.connected then some env.firstCall else none)
      = (if env.connected then some env.firstCall else none) := rfl
  rcases hfail with hdis | ⟨e, herr⟩
  · by_cases hrc : reconnectMcpServer env = true
    · rcases hsc : env.secondCall with j2 | e2 <;>
        simp [callMcpTool, hcp, hdis, hrc, hsc, Json.contains, Json.get?, jsonLookup]
    · simp at hrc
      rcases hsc : env.secondCall with j2 | e2 <;>
        simp [callMcpTool, hcp, hdis, hrc, hsc, Json.contains, Json.get?, jsonLookup]
  · rcases hc : env.connected with _ | _
    · by_cases hrc : reconnectMcpServer env = true
      · rcases hsc : env.secondCall with j2 | e2 <;>
          simp [callMcpTool, hcp, hc, hrc, hsc, Json.contains, Json.get?, jsonLookup]
      · simp at hrc
        rcases hsc : env.secondCall with j2 | e2 <;>
          simp [callMcpTool, hcp, hc, hrc, hsc, Json.contains, Json.get?, jsonLookup]
    · by_cases hrc : reconnectMcpServer env = true
      · rcases hsc : env.secondCall with j2 | e2 <;>
          simp [callMcpTool, hcp, hc, herr, hrc, hsc, Json.contains, Json.get?, jsonLookup]
      · simp at hrc
        rcases hsc : env.secondCall with j2 | e2 <;>
          simp [callMcpTool, hcp, hc, herr, hrc, hsc, Json.contains, Json.get?, jsonLookup]

/-- An environment whose first call hits a transport error and whose
reconnect and retry succeed. -/
def reconnectEnvW : McpCallEnv :=
  { clientPresent := true, connected := true, firstCall := .error "broken pipe",
    configPresent := true, reconnect := .ok true,
    secondCall := .ok (Json.obj [("out", Json.str "v")]) }

/-- Witness for C9 at a concrete failing-then-recovering environment. -/
theorem callMcpTool_one_reconnect_witness :
    (callMcpTool reconnectEnvW "win").reconnectAttempts = 1 ∧
    (reconnectMcpServer reconnectEnvW = true →
      (callMcpTool reconnectEnvW "win").callAttempts = (if reconnectEnvW.connected then 2 else 1)) ∧
    (reconnectMcpServer reconnectEnvW = false →
      (callMcpTool reconnectEnvW "win").result.contains "error" = true) ∧
    (∀ e2, reconnectEnvW.secondCall = .error e2 →
      (callMcpTool reconnectEnvW "win").result.contains "error" = true) :=
  callMcpTool_one_reconnect_one_retry reconnectEnvW "win" rfl (Or.inr ⟨"broken pipe", rfl⟩)

-- ---------------------------------------------------------------------------
-- Claim C10
-- ---------------------------------------------------------------------------

lemma findTool_regInsert_other (k n : String) (i : ToolInfo) (r : Registry) (h : k ≠ n) :
    findTool (regInsert k i r) n = findTool r n := by
  induction r with
  | nil => simp [regInsert, findTool, h]
  | cons p rest ih =>
    obtain ⟨k2, w⟩ := p
    unfold regInsert
    by_cases hlt : strLt k k2 = true
    · simp only [hlt, if_true]
      unfold findTool
      simp [h, findTool]
    · simp only [hlt, if_false]
      unfold findTool
      by_cases h2 : k2 = n <;> simp [h2, ih]

lemma regContains_iff (r : Registry) (n : String) :
    regContains r n = true ↔ ∃ p ∈ r, p.1 = n := by
  simp [regContains, List.any_eq_true]

lemma mem_regInsert (k : String) (i : ToolInfo) (r : Registry) (p : String × ToolInfo) :
    p ∈ regInsert k i r ↔ p = (k, i) ∨ p ∈ r := by
  induction r with
  | nil => simp [regInsert]
  | cons q rest ih =>
    obtain ⟨k2, w⟩ := q
    unfold regInsert
    by_cases hlt : strLt k k2 = true
    · simp [hlt, List.mem_cons]
    · simp only [Bool.not_eq_true] at hlt
      simp [hlt, List.mem_cons, ih]
      tauto

lemma findTool_some_contains (r : Registry) (n : String) (d : ToolInfo)
    (h : findTool r n = some d) : regContains r n = true := by
  rw [regContains_iff]
  induction r with
  | nil => simp [findTool] at h
  | cons p rest ih =>
    obtain ⟨k, w⟩ := p
    unfold findTool at h
    by_cases hk : k = n
    · exact ⟨(k, w), List.mem_cons_self _ _, hk⟩
    · simp only [hk, if_false] at h
      obtain ⟨p2, hp2, hn2⟩ := ih h
      exact ⟨p2, List.mem_cons_of_mem _ hp2, hn2⟩

lemma regContains_regInsert_mono (k n : String) (i : ToolInfo) (r : Registry)
    (h : regContains r n = true) : regContains (regInsert k i r) n = true := by
  rw [regContains_iff] at h ⊢
  obtain ⟨p, hp, hpn⟩ := h
  exact ⟨p, (mem_regInsert k i r p).mpr (Or.inr hp), hpn⟩

lemma regContains_regInsert_self (k : String) (i : ToolInfo) (r : Registry) :
    regContains (regInsert k i r) k = true := by
  rw [regContains_iff]
  exact ⟨(k, i), (mem_regInsert k i r (k, i)).mpr (Or.inl rfl), rfl⟩

lemma registerTool_ok_contains_self (r r2 : Registry) (i : ToolInfo)
    (hreg : registerTool r i = .ok r2) : regContains r2 i.name = true := by
  unfold registerTool at hreg
  by_cases hc : regContains r i.name = true
  · simp [hc] at hreg
  · simp only [Bool.not_eq_true] at hc
    simp [hc] at hreg
    rw [← hreg]
    exact regContains_regInsert_self i.name i r

lemma registerTool_ok_contains_mono (r r2 : Registry) (i : ToolInfo) (n : String)
    (hreg : registerTool r i = .ok r2) (h : regContains r n = true) :
    regContains r2 n = true := by
  unfold registerTool at hreg
  by_cases hc : regContains r i.name = true
  · simp [hc] at hreg
  · simp only [Bool.not_eq_true] at hc
    simp [hc] at hreg
    rw [← hreg]
    exact regContains_regInsert_mono i.name n i r h

lemma registerTool_ok_preserves_find (r r2 : Registry) (i : ToolInfo) (n : String)
    (d : ToolInfo) (hreg : registerTool r i = .ok r2) (hf : findTool r n = some d) :
    findTool r2 n = some d := by
  unfold registerTool at hreg
  by_cases hc : regContains r i.name = true
  · simp [hc] at hreg
  · simp only [Bool.not_eq_true] at hc
    simp [hc] at hreg
    have hne : i.name ≠ n := by
      intro he
      rw [he] at hc
      rw [findTool_some_contains r n d hf] at hc
      cases hc
    rw [← hreg, findTool_regInsert_other i.name n i r hne]
    exact hf

lemma registerTool_error_contains (r : Registry) (i : ToolInfo) (e : String)
    (hreg : registerTool r i = .error e) : regContains r i.name = true := by
  unfold registerTool at hreg
  by_cases hc : regContains r i.name = true
  · exact hc
  · simp only [Bool.not_eq_true] at hc
    simp [hc] at hreg

lemma toToolInfo_name (server : String) (sch : McpToolSchema) (info : ToolInfo)
    (h : toToolInfo server sch = .ok info) :
    info.name = "mcp_" ++ server ++ "_" ++ sch.name := by
  unfold toToolInfo at h
  cases hp : toToolInfoParams sch with
  | error e =>
    rw [hp] at h
    simp [Bind.bind, Except.bind] at h
  | ok ps =>
    rw [hp] at h
    simp [Bind.bind, Except.bind, pure, Except.pure] at h
    rw [← h]

/-- The specification of the connectMcpServer registration loop used by
claim C10: when every schema translates, no exception escapes the loop,
every descriptor already registered is preserved unchanged, presence of
names is monotone, and every enumerated prefixed name ends up registered. -/
lemma connectRegisterTools_spec (server : String) (cb : String → Json → Except String Json) :
    ∀ (schemas : List McpToolSchema) (r : Registry),
      (∀ sch ∈ schemas, exceptIsOk (toToolInfo server sch) = true) →
      (connectRegisterTools server cb r schemas).2 = none ∧
      (∀ n d, findTool r n = some d →
        findTool (connectRegisterTools server cb r schemas).1 n = some d) ∧
      (∀ n, regContains r n = true →
        regContains (connectRegisterTools server cb r schemas).1 n = true) ∧
      (∀ sch ∈ schemas,
        regContains (connectRegisterTools server cb r schemas).1
          ("mcp_" ++ server ++ "_" ++ sch.name) = true) := by
  intro schemas
  induction schemas with
  | nil =>
    intro r _
    refine ⟨rfl, ?_, ?_, ?_⟩
    · intro n d h
      exact h
    · intro n h
      exact h
    · intro sch h
      cases h
  | cons sch rest ih =>
    intro r hok
    have hokh : exceptIsOk (toToolInfo server sch) = true := hok sch (List.mem_cons_self sch rest)
    have hokr : ∀ s2 ∈ rest, exceptIsOk (toToolInfo server s2) = true := by
      intro s2 h2
      exact hok s2 (List.mem_cons_of_mem sch h2)
    cases hti : toToolInfo server sch with
    | error e =>
      rw [hti] at hokh
      simp [exceptIsOk] at hokh
    | ok info0 =>
      have hname : info0.name = "mcp_" ++ server ++ "_" ++ sch.name :=
        toToolInfo_name server sch info0 hti
      unfold connectRegisterTools
      rw [hti]
      simp only
      cases hreg : registerTool r { info0 with callback := some (cb sch.name) } with
      | ok r2 =>
        obtain ⟨ih1, ih2, ih3, ih4⟩ := ih r2 hokr
        refine ⟨ih1, ?_, ?_, ?_⟩
        · intro n d hf
          exact ih2 n d (registerTool_ok_preserves_find r r2 _ n d hreg hf)
        · intro n h
          exact ih3 n (registerTool_ok_contains_mono r r2 _ n hreg h)
        · intro s2 h2
          rcases List.mem_cons.mp h2 with he | h3
          · rw [he]
            have hc2 : regContains r2 ("mcp_" ++ server ++ "_" ++ sch.name) = true := by
              have := registerTool_ok_contains_self r r2 _ hreg
              rw [show ({ info0 with callback := some (cb sch.name) } : ToolInfo).name
                  = info0.name from rfl, hname] at this
              exact this
            exact ih3 _ hc2
          · exact ih4 s2 h3
      | error e =>
        obtain ⟨ih1, ih2, ih3, ih4⟩ := ih r hokr
        refine ⟨ih1, ih2, ih3, ?_⟩
        · intro s2 h2
          rcases List.mem_cons.mp h2 with he | h3
          · rw [he]
            have hc : regContains r ("mcp_" ++ server ++ "_" ++ sch.name) = true := by
              have := registerTool_error_contains r _ e hreg
              rw [show ({ info0 with callback := some (cb sch.name) } : ToolInfo).name
                  = info0.name from rfl, hname] at this
              exact this
            exact ih3 _ hc
          · exact ih4 s2 h3

/-- C10: attaching a server whose enumerated tools include one whose
prefixed name mcp server tool is already registered does not fail (the
duplicate throw of registerTool is caught and the tool skipped): the attach
reports success, every descriptor registered before the attach is still
found unchanged under its name, and every enumerated prefixed name is
registered afterwards. -/
theorem connectMcpServer_duplicate_skip :
    ∀ (server : String) (cb : String → Json → Except String Json)
      (schemas : List McpToolSchema) (r : Registry),
      (∀ sch ∈ schemas, exceptIsOk (toToolInfo server sch) = true) →
      (connectMcpServer true server cb r schemas).1 = true ∧
      (∀ n d, findTool r n = some d →
        findTool (connectMcpServer true server cb r schemas).2 n = some d) ∧
      (∀ sch ∈ schemas,
        regContains (connectMcpServer true server cb r schemas).2
          ("mcp_" ++ server ++ "_" ++ sch.name) = true) := by
  intro server cb schemas r hok
  obtain ⟨h1, h2, _, h4⟩ := connectRegisterTools_spec server cb schemas r hok
  rcases hfold : connectRegisterTools server cb r schemas with ⟨r2, tag⟩
  rw [hfold] at h1 h2 h4
  simp only at h1
  subst h1
  simp only [connectMcpServer, hfold, if_true]
  exact ⟨trivial, h2, h4⟩

def oldShellDesc : ToolInfo := { name := "mcp_win_Shell", description := "old descriptor" }

def preReg : Registry := [("mcp_win_Shell", oldShellDesc)]

def dupSchemas : List McpToolSchema := [{ name := "Shell" }, { name := "Read" }]

def modelCb : String → Json → Except String Json := fun _ args => .ok args

/-- Witness for C10: attaching server win with tools Shell and Read onto a
registry that already holds mcp_win_Shell. -/
theorem connectMcpServer_duplicate_skip_witness :
    (connectMcpServer true "win" modelCb preReg dupSchemas).1 = true ∧
    (∀ n d, findTool preReg n = some d →
      findTool (connectMcpServer true "win" modelCb preReg dupSchemas).2 n = some d) ∧
    (∀ sch ∈ dupSchemas,
      regContains (connectMcpServer true "win" modelCb preReg dupSchemas).2
        ("mcp_" ++ "win" ++ "_" ++ sch.name) = true) :=
  connectMcpServer_duplicate_skip "win" modelCb dupSchemas preReg
    (by
      intro sch h
      rcases List.mem_cons.mp h with he | h2
      · rw [he]; rfl
      · rcases List.mem_cons.mp h2 with he2 | h3
        · rw [he2]; rfl
        · cases h3)

-- ---------------------------------------------------------------------------
-- Shared lemmas about the processQuery loop
-- ---------------------------------------------------------------------------

lemma except_map_ok {α β : Type} (f : α → β) (x : Except String α) (b : β)
    (h : x.map f = .ok b) : ∃ a, x = .ok a ∧ f a = b := by
  cases x with
  | error e => simp [Except.map] at h
  | ok a =>
    refine ⟨a, rfl, ?_⟩
    simpa [Except.map] using h

/-- Every successful dispatch continues the loop with the step counter and
final answer untouched and the call recorded at the end of the history. -/
lemma dispatchTool_spec (env : LlmEnv) (st : LoopSt) (tn : String) (ta : Json)
    (res : StepRes) (h : dispatchTool env st tn ta = .ok res) :
    ∃ st2, res = .cont st2 ∧
      st2.stepsTaken = st.stepsTaken ∧
      st2.finalAnswer = st.finalAnswer ∧
      st2.toolCallHistory = st.toolCallHistory ++ [(tn, ta)] := by
  unfold dispatchTool at h
  simp only [] at h
  split at h
  · cases h
  · rename_i isError heq
    split at h
    · split at h
      · cases h
      · rename_i le hle
        injection h with h2
        exact ⟨_, h2.symm, rfl, rfl, rfl⟩
    · injection h with h2
      exact ⟨_, h2.symm, rfl, rfl, rfl⟩

/-- Every successful iteration body keeps or breaks; in all cases the step
counter is not changed by the reply handling. -/
lemma stepWithResponse_stepsTaken (env : LlmEnv) (st : LoopSt) (response : String)
    (res : StepRes) (h : stepWithResponse env st response = .ok res) :
    res.state.stepsTaken = st.stepsTaken := by
  unfold stepWithResponse at h
  simp only [] at h
  split at h
  · cases h
  · rename_i parsed hp
    split at h
    · injection h with h2
      rw [← h2]
      rfl
    · split at h
      · split at h
        · injection h with h2
          rw [← h2]
          rfl
        · obtain ⟨st2, he, hsteps, _, _⟩ := dispatchTool_spec _ _ _ _ _ h
          rw [he]
          exact hsteps
      · injection h with h2
        rw [← h2]
        rfl

lemma preLlmState_stepsTaken (input : String) (st : LoopSt) :
    (preLlmState input st).stepsTaken = st.stepsTaken + 1 := by
  unfold preLlmState
  simp only []
  split <;> rfl

lemma preLlmState_finalAnswer (input : String) (st : LoopSt) :
    (preLlmState input st).finalAnswer = st.finalAnswer := by
  unfold preLlmState
  simp only []
  split <;> rfl

lemma preLlmState_toolCallHistory (input : String) (st : LoopSt) :
    (preLlmState input st).toolCallHistory = st.toolCallHistory := by
  unfold preLlmState
  simp only []
  split <;> rfl

/-- One successful loop iteration increments the step counter by exactly
one. -/
lemma agentStep_stepsTaken (env : LlmEnv) (input : String) (st : LoopSt)
    (res : StepRes) (h : agentStep env input st = .ok res) :
    res.state.stepsTaken = st.stepsTaken + 1 := by
  unfold agentStep at h
  simp only [] at h
  split at h
  · exact (stepWithResponse_stepsTaken _ _ _ _ h).trans (preLlmState_stepsTaken input st)
  · split at h
    · exact (stepWithResponse_stepsTaken _ _ _ _ h).trans (preLlmState_stepsTaken input st)
    · injection h with h2
      rw [← h2]
      exact preLlmState_stepsTaken input st

/-- The loop can take at most fuel-many iterations, each adding one step. -/
lemma runLoop_stepsTaken_le (env : LlmEnv) (input : String) (L : Int) :
    ∀ (fuel : Nat) (st stf : LoopSt),
      runLoop env input L fuel st = .ok stf →
      stf.stepsTaken ≤ st.stepsTaken + (fuel : Int) := by
  intro fuel
  induction fuel with
  | zero =>
    intro st stf h
    unfold runLoop at h
    injection h with h2
    rw [← h2]
    simp
  | succ n ih =>
    intro st stf h
    unfold runLoop at h
    split at h
    · split at h
      · cases h
      · rename_i st2 heq
        injection h with h2
        have hs := agentStep_stepsTaken _ _ _ _ heq
        simp only [StepRes.state] at hs
        rw [← h2]
        omega
      · rename_i st2 heq
        have hs := agentStep_stepsTaken _ _ _ _ heq
        simp only [StepRes.state] at hs
        have h3 := ih _ _ h
        omega
    · injection h with h2
      rw [← h2]
      omega

-- ---------------------------------------------------------------------------
-- Claim C4
-- ---------------------------------------------------------------------------

lemma rewriteToolMsg_not_tool (m : Message) : (rewriteToolMsg m).role ≠ .tool := by
  unfold rewriteToolMsg
  by_cases h : m.role = .tool <;> simp [h]

lemma pruneHistory_sub (mx : Int) (msgs : List Message) :
    ∀ m ∈ pruneHistory mx msgs, m ∈ msgs := by
  intro m hm
  unfold pruneHistory at hm
  by_cases h : mx > 0 ∧ (msgs.length : Int) > mx
  · rw [if_pos h] at hm
    exact List.mem_of_mem_drop hm
  · rw [if_neg h] at hm
    exact hm

lemma pruneHistory_length (mx : Int) (msgs : List Message) (h : 0 < mx) :
    ((pruneHistory mx msgs).length : Int) ≤ mx := by
  unfold pruneHistory
  by_cases hc : mx > 0 ∧ (msgs.length : Int) > mx
  · rw [if_pos hc]
    rw [List.length_drop]
    obtain ⟨h1, h2⟩ := hc
    omega
  · rw [if_neg hc]
    push_neg at hc
    have h2 := hc h
    omega

/-- C4: after every completed processQuery call the persisted history has
no tool-role message (each one has been rewritten by rewriteToolMsg into a
user-role message reading Result-from name colon content, with name and
tool_call_id cleared), and the history length respects a positive
max_history_messages ceiling; the persisted history is exactly the trim of
the elementwise rewrite of the turn message list. -/
theorem processQuery_history_rewritten :
    ∀ (cfg : AgentConfig) (env : LlmEnv) (hist0 : List Message) (input : String)
      (maxSteps : Int) (out : QueryOutcome),
      processQuery cfg env hist0 input maxSteps = .ok out →
      (∀ m ∈ out.history, m.role ≠ .tool) ∧
      (0 < cfg.maxHistoryMessages → (out.history.length : Int) ≤ cfg.maxHistoryMessages) ∧
      out.history = pruneHistory cfg.maxHistoryMessages (out.rawMessages.map rewriteToolMsg) := by
  intro cfg env hist0 input maxSteps out h
  unfold processQuery at h
  obtain ⟨st, _, hfin⟩ := except_map_ok _ _ _ h
  rw [← hfin]
  refine ⟨?_, ?_, rfl⟩
  · intro m hm
    have hm2 := pruneHistory_sub _ _ m hm
    obtain ⟨m0, _, hme⟩ := List.mem_map.mp hm2
    rw [← hme]
    exact rewriteToolMsg_not_tool m0
  · intro hpos
    exact pruneHistory_length _ _ hpos

/-- An environment whose model immediately answers in plain text. -/
def plainChatEnv : LlmEnv :=
  { llm := fun _ => .ok "pong", exec := fun _ _ => Json.null }

def exceptGetD {α : Type} (x : Except String α) (dflt : α) : α :=
  match x with
  | .ok a => a
  | .error _ => dflt

/-- The concrete outcome of the plain-text conversation (the default is
never taken: the run completes in one step). -/
def plainChatOut : QueryOutcome :=
  exceptGetD (processQuery {} plainChatEnv [] "ping" 0) (finishQuery {} 0 (initLoopSt [] "ping"))

/-- Witness for C4 at a one-step plain-text conversation. -/
theorem processQuery_history_rewritten_witness :
    (∀ m ∈ plainChatOut.history, m.role ≠ .tool) ∧
    (0 < ({} : AgentConfig).maxHistoryMessages →
      ((plainChatOut.history.length : Int) ≤ ({} : AgentConfig).maxHistoryMessages)) ∧
    plainChatOut.history
      = pruneHistory ({} : AgentConfig).maxHistoryMessages
          (plainChatOut.rawMessages.map rewriteToolMsg) :=
  processQuery_history_rewritten {} plainChatEnv [] "ping" 0 plainChatOut rfl

-- ---------------------------------------------------------------------------
-- Claim C3
-- ---------------------------------------------------------------------------

/-- A model that always replies in plain text; tools never run. -/
def trivialEnv : LlmEnv :=
  { llm := fun _ => .ok "x", exec := fun _ _ => Json.null }

/-- C3 counterexample: the claim bounds steps_taken by steps_limit for
every query, with steps_limit the positive maxSteps argument, else the
configured maxSteps; configuring maxSteps as minus one and passing zero
gives steps_limit minus one while the loop body never runs, so the
returned record has steps_taken zero, strictly above steps_limit. -/
theorem processQuery_negative_limit_cex :
    (processQuery { maxSteps := -1 } trivialEnv [] "q" 0).map
        (fun o => (decide (o.stepsTaken ≤ o.stepsLimit), o.stepsTaken, o.stepsLimit))
      = .ok (false, 0, -1) := rfl

/-- C3 amended: provided the effective steps limit is nonnegative (which
holds whenever the maxSteps argument is positive or the configured maxSteps
is nonnegative; the C++ default is twenty), every completed processQuery
call returns steps_taken at most steps_limit, steps_limit is the positive
maxSteps argument else the configured maxSteps, and when the loop ends
without producing a final answer the result field is exactly the
reached-maximum-steps message with the effective limit spelled into it. -/
theorem processQuery_step_bound :
    ∀ (cfg : AgentConfig) (env : LlmEnv) (hist0 : List Message) (input : String)
      (maxSteps : Int) (out : QueryOutcome),
      0 ≤ queryLimit cfg maxSteps →
      processQuery cfg env hist0 input maxSteps = .ok out →
      out.stepsTaken ≤ out.stepsLimit ∧
      out.stepsLimit = queryLimit cfg maxSteps ∧
      (out.loopAnswer = "" →
        out.result = "Reached maximum steps limit (" ++ toString out.stepsLimit ++ " steps).") := by
  intro cfg env hist0 input maxSteps out hL h
  unfold processQuery at h
  obtain ⟨st, hrun, hfin⟩ := except_map_ok _ _ _ h
  have hle := runLoop_stepsTaken_le env input (queryLimit cfg maxSteps) _ _ _ hrun
  have h0 : (initLoopSt hist0 input).stepsTaken = 0 := rfl
  rw [h0] at hle
  rw [← hfin]
  refine ⟨?_, rfl, ?_⟩
  · show st.stepsTaken ≤ queryLimit cfg maxSteps
    omega
  · intro hla
    have hla2 : st.finalAnswer = "" := hla
    show (if st.finalAnswer = "" then
        "Reached maximum steps limit (" ++ toString (queryLimit cfg maxSteps) ++ " steps)."
      else st.finalAnswer) = _
    rw [if_pos hla2]
    rfl

/-- The exact constant tool-request reply used in the loop claims. -/
def constToolReply : String :=
  "\x7b\"thought\":\"t\",\"goal\":\"g\",\"tool\":\"X\",\"tool_args\":\x7b\x7d\x7d"

/-- A model that requests tool X forever; the tool returns a plain object. -/
def repeatToolEnv : LlmEnv :=
  { llm := fun _ => .ok constToolReply,
    exec := fun _ _ => Json.obj [("ok", Json.bool true)] }

/-- The concrete outcome of a one-step limited run that exhausts the bound. -/
def stepBoundOut : QueryOutcome :=
  exceptGetD (processQuery {} repeatToolEnv [] "q" 1) (finishQuery {} 0 (initLoopSt [] "q"))

/-- Witness for the C3 amended theorem: with limit one and a tool-calling
model the bound is exhausted and the synthesized message carries the limit. -/
theorem processQuery_step_bound_witness :
    stepBoundOut.stepsTaken ≤ stepBoundOut.stepsLimit ∧
    stepBoundOut.stepsLimit = queryLimit {} 1 ∧
    (stepBoundOut.loopAnswer = "" →
      stepBoundOut.result
        = "Reached maximum steps limit (" ++ toString stepBoundOut.stepsLimit ++ " steps).") :=
  processQuery_step_bound {} repeatToolEnv [] "q" 1 stepBoundOut (by decide) rfl

-- ---------------------------------------------------------------------------
-- Claim C2
-- ---------------------------------------------------------------------------

lemma parseLlmResponse_constToolReply :
    parseLlmResponse constToolReply
      = .ok { thought := "t", goal := "g", toolName := some "X",
              toolArgs := some (Json.obj []) } := rfl

lemma loopDetect_short (hist : List (String × Json)) (tn : String)
    (h : hist.length < 4) : loopDetect hist tn = false := by
  unfold loopDetect
  rw [if_neg]
  omega

lemma preLlmState_llmCalls (input : String) (st : LoopSt) :
    (preLlmState input st).llmCalls = st.llmCalls := by
  unfold preLlmState
  simp only []
  split <;> rfl

/-- Successful dispatch exists whenever the status and error field reads of
the tool result do not throw. -/
lemma dispatchTool_ok (env : LlmEnv) (st : LoopSt) (tn : String) (ta : Json)
    (hst : ∃ s, jValueString (env.exec tn ta) "status" "" = .ok s)
    (herr : ∃ e, jValueString (env.exec tn ta) "error" "Unknown error" = .ok e) :
    ∃ st2, dispatchTool env st tn ta = .ok (.cont st2) ∧
      st2.stepsTaken = st.stepsTaken ∧
      st2.finalAnswer = st.finalAnswer ∧
      st2.toolCallHistory = st.toolCallHistory ++ [(tn, ta)] ∧
      st2.llmCalls = st.llmCalls := by
  obtain ⟨s, hs⟩ := hst
  obtain ⟨e, he⟩ := herr
  unfold dispatchTool toolResultStatus
  simp only []
  by_cases hobj : (env.exec tn ta).isObj = true
  · rw [if_pos hobj, hs]
    simp only []
    by_cases hse : (s == "error") = true
    · rw [if_pos hse, he]
      exact ⟨_, rfl, rfl, rfl, rfl, rfl⟩
    · rw [if_neg hse]
      exact ⟨_, rfl, rfl, rfl, rfl, rfl⟩
  · rw [if_neg hobj]
    simp only []
    exact ⟨_, rfl, rfl, rfl, rfl, rfl⟩

/-- Handling the constant tool request while the loop detector is silent:
the call is dispatched and the loop continues. -/
lemma stepWithResponse_constTool (env : LlmEnv) (st : LoopSt)
    (hdetect : loopDetect st.toolCallHistory "X" = false)
    (hst : ∃ s, jValueString (env.exec "X" (Json.obj [])) "status" "" = .ok s)
    (herr : ∃ e, jValueString (env.exec "X" (Json.obj [])) "error" "Unknown error" = .ok e) :
    ∃ st2, stepWithResponse env st constToolReply = .ok (.cont st2) ∧
      st2.stepsTaken = st.stepsTaken ∧
      st2.finalAnswer = st.finalAnswer ∧
      st2.toolCallHistory = st.toolCallHistory ++ [("X", Json.obj [])] ∧
      st2.llmCalls = st.llmCalls := by
  unfold stepWithResponse
  simp only []
  rw [parseLlmResponse_constToolReply]
  simp only []
  rw [show ({ st with messages := st.messages ++
      [{ role := .assistant, content := constToolReply }] } : LoopSt).toolCallHistory
    = st.toolCallHistory from rfl, hdetect]
  simp only [Bool.false_eq_true, if_false]
  obtain ⟨st2, hd, h1, h2, h3, h4⟩ := dispatchTool_ok env _ "X" (Json.obj []) hst herr
  exact ⟨st2, hd, h1, h2, h3, h4⟩

/-- Handling the constant tool request once the loop detector fires: the
loop breaks with the stop answer and no dispatch happens. -/
lemma stepWithResponse_constTool_stop (env : LlmEnv) (st : LoopSt)
    (hdetect : loopDetect st.toolCallHistory "X" = true) :
    ∃ st2, stepWithResponse env st constToolReply = .ok (.brk st2) ∧
      st2.finalAnswer = "Task stopped due to repeated tool call loop." ∧
      st2.stepsTaken = st.stepsTaken ∧
      st2.toolCallHistory = st.toolCallHistory := by
  unfold stepWithResponse
  simp only []
  rw [parseLlmResponse_constToolReply]
  simp only []
  rw [show ({ st with messages := st.messages ++
      [{ role := .assistant, content := constToolReply }] } : LoopSt).toolCallHistory
    = st.toolCallHistory from rfl, hdetect]
  simp only [if_true]
  exact ⟨_, rfl, rfl, rfl, rfl⟩

lemma agentStep_llm_ok (env : LlmEnv) (input : String) (st : LoopSt) (response : String)
    (hllm : env.llm (preLlmState input st).llmCalls = .ok response) :
    agentStep env input st = stepWithResponse env
      { preLlmState input st with llmCalls := (preLlmState input st).llmCalls + 1 }
      response := by
  unfold agentStep
  simp only []
  rw [hllm]

/-- Under a model that answers the current call with the constant tool
request, an iteration below the hard-coded threshold dispatches the call
and extends the record. -/
lemma repeatStep_cont (env : LlmEnv) (input : String) (i : Nat) (st : LoopSt)
    (hllm : env.llm i = .ok constToolReply)
    (hst : ∀ tn a, ∃ s, jValueString (env.exec tn a) "status" "" = .ok s)
    (herr : ∀ tn a, ∃ e, jValueString (env.exec tn a) "error" "Unknown error" = .ok e)
    (hfa : st.finalAnswer = "") (hsteps : st.stepsTaken = (i : Int))
    (hhist : st.toolCallHistory = List.replicate i ("X", Json.obj []))
    (hlc : st.llmCalls = i) (hi : i ≤ 3) :
    ∃ st2, agentStep env input st = .ok (.cont st2) ∧
      st2.finalAnswer = "" ∧ st2.stepsTaken = ((i + 1 : Nat) : Int) ∧
      st2.toolCallHistory = List.replicate (i + 1) ("X", Json.obj []) ∧
      st2.llmCalls = i + 1 := by
  rw [agentStep_llm_ok env input st constToolReply
      (by rw [preLlmState_llmCalls, hlc]; exact hllm)]
  have hdet : loopDetect ({ preLlmState input st with
      llmCalls := (preLlmState input st).llmCalls + 1 } : LoopSt).toolCallHistory "X" = false := by
    show loopDetect (preLlmState input st).toolCallHistory "X" = false
    rw [preLlmState_toolCallHistory, hhist]
    apply loopDetect_short
    simp
    omega
  obtain ⟨st2, hsw, h1, h2, h3, h4⟩ :=
    stepWithResponse_constTool env _ hdet (hst _ _) (herr _ _)
  refine ⟨st2, hsw, ?_, ?_, ?_, ?_⟩
  · rw [h2]
    show (preLlmState input st).finalAnswer = ""
    rw [preLlmState_finalAnswer]
    exact hfa
  · rw [h1]
    show (preLlmState input st).stepsTaken = _
    rw [preLlmState_stepsTaken, hsteps]
    push_cast
    ring
  · rw [h3]
    show (preLlmState input st).toolCallHistory ++ [("X", Json.obj [])] = _
    rw [preLlmState_toolCallHistory, hhist]
    exact (List.replicate_succ' i ("X", Json.obj [])).symm
  · rw [h4]
    show (preLlmState input st).llmCalls + 1 = i + 1
    rw [preLlmState_llmCalls, hlc]

/-- Under a model that answers the current call with the constant tool
request, the fifth consecutive request is not dispatched: the detector
fires and the loop breaks with the stop answer. -/
lemma repeatStep_stop (env : LlmEnv) (input : String) (st : LoopSt)
    (hllm : env.llm 4 = .ok constToolReply)
    (_hfa : st.finalAnswer = "") (hsteps : st.stepsTaken = (4 : Int))
    (hhist : st.toolCallHistory = List.replicate 4 ("X", Json.obj []))
    (hlc : st.llmCalls = 4) :
    ∃ st2, agentStep env input st = .ok (.brk st2) ∧
      st2.finalAnswer = "Task stopped due to repeated tool call loop." ∧
      st2.stepsTaken = 5 ∧
      st2.toolCallHistory = List.replicate 4 ("X", Json.obj []) := by
  rw [agentStep_llm_ok env input st constToolReply
      (by rw [preLlmState_llmCalls, hlc]; exact hllm)]
  have hdet : loopDetect ({ preLlmState input st with
      llmCalls := (preLlmState input st).llmCalls + 1 } : LoopSt).toolCallHistory "X" = true := by
    show loopDetect (preLlmState input st).toolCallHistory "X" = true
    rw [preLlmState_toolCallHistory, hhist]
    rfl
  obtain ⟨st2, hsw, hfa2, hst2, hh2⟩ := stepWithResponse_constTool_stop env _ hdet
  refine ⟨st2, hsw, hfa2, ?_, ?_⟩
  · rw [hst2]
    show (preLlmState input st).stepsTaken = 5
    rw [preLlmState_stepsTaken, hsteps]
    rfl
  · rw [hh2]
    show (preLlmState input st).toolCallHistory = _
    rw [preLlmState_toolCallHistory, hhist]

/-- Under the always-repeating model and at least five steps of budget, the
loop dispatches exactly four calls and stops at the fifth request. -/
lemma repeatRunLoop (env : LlmEnv) (input : String) (L : Int) (hL : 5 ≤ L)
    (hllm : ∀ n, env.llm n = .ok constToolReply)
    (hst : ∀ tn a, ∃ s, jValueString (env.exec tn a) "status" "" = .ok s)
    (herr : ∀ tn a, ∃ e, jValueString (env.exec tn a) "error" "Unknown error" = .ok e)
    (st0 : LoopSt)
    (hfa : st0.finalAnswer = "") (hsteps : st0.stepsTaken = 0)
    (hhist : st0.toolCallHistory = []) (hlc : st0.llmCalls = 0) :
    ∃ stf, runLoop env input L L.toNat st0 = .ok stf ∧
      stf.finalAnswer = "Task stopped due to repeated tool call loop." ∧
      stf.toolCallHistory.length = 4 ∧ stf.stepsTaken = 5 := by
  obtain ⟨m, hm⟩ : ∃ m, L.toNat = m + 5 := ⟨L.toNat - 5, by omega⟩
  rw [hm]
  obtain ⟨st1, hs1, hfa1, hsteps1, hhist1, hlc1⟩ :=
    repeatStep_cont env input 0 st0 (hllm 0) hst herr hfa (by rw [hsteps]; rfl)
      (by rw [hhist]; rfl) hlc (by omega)
  obtain ⟨st2, hs2, hfa2, hsteps2, hhist2, hlc2⟩ :=
    repeatStep_cont env input 1 st1 (hllm 1) hst herr hfa1 hsteps1 hhist1 hlc1 (by omega)
  obtain ⟨st3, hs3, hfa3, hsteps3, hhist3, hlc3⟩ :=
    repeatStep_cont env input 2 st2 (hllm 2) hst herr hfa2 hsteps2 hhist2 hlc2 (by omega)
  obtain ⟨st4, hs4, hfa4, hsteps4, hhist4, hlc4⟩ :=
    repeatStep_cont env input 3 st3 (hllm 3) hst herr hfa3 hsteps3 hhist3 hlc3 (by omega)
  obtain ⟨st5, hs5, hfa5, hsteps5, hhist5⟩ :=
    repeatStep_stop env input st4 (hllm 4) hfa4 (by rw [hsteps4]; rfl) hhist4 hlc4
  rw [show m + 5 = (m + 4) + 1 from rfl]
  unfold runLoop
  rw [if_pos ⟨by rw [hsteps]; omega, hfa⟩, hs1]
  simp only []
  rw [show m + 4 = (m + 3) + 1 from rfl]
  unfold runLoop
  rw [if_pos ⟨by rw [hsteps1]; push_cast; omega, hfa1⟩, hs2]
  simp only []
  rw [show m + 3 = (m + 2) + 1 from rfl]
  unfold runLoop
  rw [if_pos ⟨by rw [hsteps2]; push_cast; omega, hfa2⟩, hs3]
  simp only []
  rw [show m + 2 = (m + 1) + 1 from rfl]
  unfold runLoop
  rw [if_pos ⟨by rw [hsteps3]; push_cast; omega, hfa3⟩, hs4]
  simp only []
  unfold runLoop
  rw [if_pos ⟨by rw [hsteps4]; push_cast; omega, hfa4⟩, hs5]
  simp only []
  refine ⟨st5, rfl, hfa5, ?_, hsteps5⟩
  rw [hhist5]
  rfl

/-- C2 amended: the loop-detection threshold is the literal four of
agent.cpp; AgentConfig.maxConsecutiveRepeats is never consulted (the
configuration below is arbitrary).  When the model keeps requesting the
same tool, the loop dispatches it exactly four times and terminates at the
fifth consecutive request with the stop answer, without dispatching a
fifth call. -/
theorem processQuery_loop_stop_hardcoded_four :
    ∀ (cfg : AgentConfig) (env : LlmEnv) (hist0 : List Message) (input : String)
      (maxSteps : Int),
      (∀ n, env.llm n = .ok constToolReply) →
      (∀ tn a, ∃ s, jValueString (env.exec tn a) "status" "" = .ok s) →
      (∀ tn a, ∃ e, jValueString (env.exec tn a) "error" "Unknown error" = .ok e) →
      5 ≤ queryLimit cfg maxSteps →
      ∃ out, processQuery cfg env hist0 input maxSteps = .ok out ∧
        out.result = "Task stopped due to repeated tool call loop." ∧
        out.toolCalls.length = 4 ∧
        out.stepsTaken = 5 := by
  intro cfg env hist0 input maxSteps hllm hst herr hL
  obtain ⟨stf, hrun, hfa, hlen, hsteps⟩ :=
    repeatRunLoop env input (queryLimit cfg maxSteps) hL hllm hst herr
      (initLoopSt hist0 input) rfl rfl rfl rfl
  refine ⟨finishQuery cfg (queryLimit cfg maxSteps) stf, ?_, ?_, hlen, hsteps⟩
  · unfold processQuery
    rw [hrun]
    rfl
  · show (if stf.finalAnswer = "" then
        "Reached maximum steps limit (" ++ toString (queryLimit cfg maxSteps) ++ " steps)."
      else stf.finalAnswer) = _
    rw [hfa, if_neg (by decide)]

/-- A model that requests the same tool four times and then answers. -/
def answerReply : String := "\x7b\"thought\":\"t\",\"goal\":\"g\",\"answer\":\"done\"\x7d"

def fourThenAnswerEnv : LlmEnv :=
  { llm := fun n => .ok (if n < 4 then constToolReply else answerReply),
    exec := fun _ _ => Json.obj [("ok", Json.bool true)] }

lemma parseLlmResponse_answerReply :
    parseLlmResponse answerReply
      = .ok { thought := "t", goal := "g", answer := some "done" } := rfl

/-- Handling the final-answer reply: the loop breaks with that answer. -/
lemma stepWithResponse_answer (env : LlmEnv) (st : LoopSt) :
    ∃ st2, stepWithResponse env st answerReply = .ok (.brk st2) ∧
      st2.finalAnswer = "done" ∧
      st2.toolCallHistory = st.toolCallHistory := by
  unfold stepWithResponse
  simp only []
  rw [parseLlmResponse_answerReply]
  simp only []
  exact ⟨_, rfl, rfl, rfl⟩

/-- After four repeats, a reply that answers breaks the loop with the plain
answer: the detector never fires. -/
lemma answerStep_brk (env : LlmEnv) (input : String) (st : LoopSt)
    (hllm : env.llm st.llmCalls = .ok answerReply) :
    ∃ st2, agentStep env input st = .ok (.brk st2) ∧
      st2.finalAnswer = "done" ∧
      st2.toolCallHistory = st.toolCallHistory := by
  rw [agentStep_llm_ok env input st answerReply
      (by rw [preLlmState_llmCalls]; exact hllm)]
  obtain ⟨st2, hsw, hfa2, hh2⟩ := stepWithResponse_answer env _
  refine ⟨st2, hsw, hfa2, ?_⟩
  rw [hh2]
  show (preLlmState input st).toolCallHistory = st.toolCallHistory
  exact preLlmState_toolCallHistory input st

/-- The four-then-answer run: four dispatches, a fifth model call, and the
plain answer as the result. -/
lemma fourThenAnswerRunLoop :
    ∃ stf, runLoop fourThenAnswerEnv "q" 20 20 (initLoopSt [] "q") = .ok stf ∧
      stf.finalAnswer = "done" ∧ stf.toolCallHistory.length = 4 := by
  obtain ⟨st1, hs1, hfa1, hsteps1, hhist1, hlc1⟩ :=
    repeatStep_cont fourThenAnswerEnv "q" 0 (initLoopSt [] "q") rfl
      (fun _ _ => ⟨"", rfl⟩) (fun _ _ => ⟨"Unknown error", rfl⟩) rfl rfl rfl rfl (by omega)
  obtain ⟨st2, hs2, hfa2, hsteps2, hhist2, hlc2⟩ :=
    repeatStep_cont fourThenAnswerEnv "q" 1 st1 rfl
      (fun _ _ => ⟨"", rfl⟩) (fun _ _ => ⟨"Unknown error", rfl⟩) hfa1 hsteps1 hhist1 hlc1 (by omega)
  obtain ⟨st3, hs3, hfa3, hsteps3, hhist3, hlc3⟩ :=
    repeatStep_cont fourThenAnswerEnv "q" 2 st2 rfl
      (fun _ _ => ⟨"", rfl⟩) (fun _ _ => ⟨"Unknown error", rfl⟩) hfa2 hsteps2 hhist2 hlc2 (by omega)
  obtain ⟨st4, hs4, hfa4, hsteps4, hhist4, hlc4⟩ :=
    repeatStep_cont fourThenAnswerEnv "q" 3 st3 rfl
      (fun _ _ => ⟨"", rfl⟩) (fun _ _ => ⟨"Unknown error", rfl⟩) hfa3 hsteps3 hhist3 hlc3 (by omega)
  obtain ⟨st5, hs5, hfa5, hh5⟩ :=
    answerStep_brk fourThenAnswerEnv "q" st4 (by rw [hlc4]; rfl)
  rw [show (20 : Nat) = 19 + 1 from rfl]
  unfold runLoop
  rw [if_pos ⟨by decide, rfl⟩, hs1]
  simp only []
  rw [show (19 : Nat) = 18 + 1 from rfl]
  unfold runLoop
  rw [if_pos ⟨by rw [hsteps1]; decide, hfa1⟩, hs2]
  simp only []
  rw [show (18 : Nat) = 17 + 1 from rfl]
  unfold runLoop
  rw [if_pos ⟨by rw [hsteps2]; decide, hfa2⟩, hs3]
  simp only []
  rw [show (17 : Nat) = 16 + 1 from rfl]
  unfold runLoop
  rw [if_pos ⟨by rw [hsteps3]; decide, hfa3⟩, hs4]
  simp only []
  rw [show (16 : Nat) = 15 + 1 from rfl]
  unfold runLoop
  rw [if_pos ⟨by rw [hsteps4]; decide, hfa4⟩, hs5]
  simp only []
  refine ⟨st5, rfl, hfa5, ?_⟩
  rw [hh5, hhist4]
  rfl

/-- C2 counterexample: under the default configuration (threshold four) a
model that requests the same tool exactly four consecutive times and then
answers never triggers the loop stop: all four repeats are dispatched, a
fifth model call happens, and the final result is the plain answer rather
than the stop message.  The stop only ever fires on a fifth consecutive
identical request, and the threshold is not read from
AgentConfig.maxConsecutiveRepeats. -/
theorem processQuery_four_repeats_cex :
    (∃ out, processQuery {} fourThenAnswerEnv [] "q" 0 = .ok out ∧
      out.result = "done" ∧ out.toolCalls.length = 4) ∧
    ("done" : String) ≠ "Task stopped due to repeated tool call loop." := by
  refine ⟨?_, by decide⟩
  obtain ⟨stf, hrun, hfa, hlen⟩ := fourThenAnswerRunLoop
  refine ⟨finishQuery {} 20 stf, ?_, ?_, hlen⟩
  · show (runLoop fourThenAnswerEnv "q" 20 20 (initLoopSt [] "q")).map (finishQuery {} 20)
      = _
    rw [hrun]
    rfl
  · show (if stf.finalAnswer = "" then
        "Reached maximum steps limit (" ++ toString (20 : Int) ++ " steps)."
      else stf.finalAnswer) = _
    rw [hfa, if_neg (by decide)]

/-- Witness for the C2 amended theorem under the default configuration and
a concrete tool result object. -/
theorem processQuery_loop_stop_witness :
    ∃ out, processQuery {} repeatToolEnv [] "go" 0 = .ok out ∧
      out.result = "Task stopped due to repeated tool call loop." ∧
      out.toolCalls.length = 4 ∧
      out.stepsTaken = 5 :=
  processQuery_loop_stop_hardcoded_four {} repeatToolEnv [] "go" 0
    (fun _ => rfl) (fun _ _ => ⟨"", rfl⟩) (fun _ _ => ⟨"Unknown error", rfl⟩) (by decide)


end Gaia
